import Mathlib

/-!
Load tester (`loadtest/load-test2.js`): statistics, batching, sessions.

A shallow embedding of the `LoadTester` class.  A JavaScript number is the
rational it denotes, and every arithmetic operation of the source whose exact
result need not be a double rounds it to the nearest double (`toDouble`).
Millisecond clock readings are integers, counters are naturals.  `undefined`
results and thrown exceptions are an explicit `none`.
-/

namespace LoadTester

/-! ## Double-precision arithmetic -/

/-- Round to the nearest integer, a tie going to the even one. -/
def roundHalfEven (y : ℚ) : Int :=
  let f := ⌊y⌋
  if y - (f : ℚ) < 1 / 2 then f
  else if 1 / 2 < y - (f : ℚ) then f + 1
  else if f % 2 = 0 then f else f + 1

/-- Exponent of the unit in the last place of the double nearest to `x`: 52
below the binary exponent of `x`, and never below -1074 (subnormal range). -/
def ulpExponent (x : ℚ) : Int :=
  max (Int.log 2 |x| - 52) (-1074)

/-- The IEEE 754 double nearest to a rational (round to nearest, ties to even),
with gradual underflow.  The exponent range is left open above. -/
def toDouble (x : ℚ) : ℚ :=
  (roundHalfEven (x / (2 : ℚ) ^ ulpExponent x) : ℚ) * (2 : ℚ) ^ ulpExponent x

/-- Double division `a / b`. -/
def fdiv (a b : ℚ) : ℚ := toDouble (a / b)

/-- Double multiplication `a * b`. -/
def fmul (a b : ℚ) : ℚ := toDouble (a * b)

/-- Double addition `a + b`. -/
def fadd (a b : ℚ) : ℚ := toDouble (a + b)

/-! ## Percentiles and the metrics snapshot -/

/-- Ascending numeric sort of a copy: `[...arr].sort((a, b) => a - b)`. -/
def sortAscending (arr : List ℚ) : List ℚ :=
  arr.insertionSort (· ≤ ·)

/-- Array read `sorted[index]` at an integer index: `undefined` (here `none`)
outside `0 .. length - 1`. -/
def arrayAt (sorted : List ℚ) (index : Int) : Option ℚ :=
  if index < 0 then none else sorted[index.toNat]?

/-- Method `getPercentile(arr, percentile)`:
`if (arr.length === 0) return 0;` then the sorted copy is read at
`Math.ceil((percentile / 100) * sorted.length) - 1`, the quotient and the
product being computed in doubles. -/
def getPercentile (arr : List ℚ) (percentile : ℚ) : Option ℚ :=
  if arr.length = 0 then some 0
  else
    let sorted := sortAscending arr
    let index : Int := ⌈fmul (fdiv percentile 100) (sorted.length : ℚ)⌉ - 1
    arrayAt sorted index

/-- The decimal spelled by the string `x.toFixed(2)` for a double `x`: the
closest multiple of `1/100` to the magnitude, the larger one on a tie, with the
sign of `x`; from `10^21` on the string spells `x` itself. -/
def toFixed2 (x : ℚ) : ℚ :=
  if x < 0 then
    if (10 : ℚ) ^ 21 ≤ -x then x else -((⌊(-x) * 100 + 1 / 2⌋ : Int) : ℚ) / 100
  else
    if (10 : ℚ) ^ 21 ≤ x then x else ((⌊x * 100 + 1 / 2⌋ : Int) : ℚ) / 100

/-- The record `this.metrics` of the constructor. -/
structure Metrics where
  usersCreated : Nat := 0
  connected : Nat := 0
  disconnected : Nat := 0
  messagesSent : Nat := 0
  messagesReceived : Nat := 0
  messagesRead : Nat := 0
  readAcksReceived : Nat := 0
  errorsAuth : Nat := 0
  errorsConnection : Nat := 0
  errorsMessage : Nat := 0
  latencies : List ℚ := []
  connectionTimes : List ℚ := []
  startTime : Int := 0
deriving DecidableEq

/-- The derived values `printMetrics` computes; a `toFixed(2)` string stands as
the decimal it spells. -/
structure Derived where
  elapsedSeconds : ℚ
  avgLatency : ℚ
  avgConnectionTime : ℚ
  p95Latency : ℚ
  p99Latency : ℚ
  messagesPerSec : ℚ
deriving DecidableEq

/-- Sum of the samples: `arr.reduce((a, b) => a + b, 0)`, each addition in
doubles. -/
def sumSamples (arr : List ℚ) : ℚ :=
  arr.foldl (fun a b => fadd a b) 0

/-- The computing part of `printMetrics()`, `now` being the reading of
`Date.now()`.  `none` stands for the `TypeError` of `undefined.toFixed`. -/
def printMetrics (now : Int) (m : Metrics) : Option Derived :=
  let elapsedSeconds : ℚ := fdiv ((now - m.startTime : Int) : ℚ) 1000
  let avgLatency : ℚ :=
    if m.latencies.length > 0 then
      toFixed2 (fdiv (sumSamples m.latencies) (m.latencies.length : ℚ))
    else 0
  let avgConnectionTime : ℚ :=
    if m.connectionTimes.length > 0 then
      toFixed2 (fdiv (sumSamples m.connectionTimes) (m.connectionTimes.length : ℚ))
    else 0
  let p95Latency : Option ℚ :=
    if m.latencies.length > 0 then (getPercentile m.latencies 95).map toFixed2
    else some 0
  let p99Latency : Option ℚ :=
    if m.latencies.length > 0 then (getPercentile m.latencies 99).map toFixed2
    else some 0
  let messagesPerSec : ℚ :=
    if elapsedSeconds > 0 then toFixed2 (fdiv (m.messagesSent : ℚ) elapsedSeconds)
    else 0
  p95Latency.bind fun p95 =>
  p99Latency.bind fun p99 =>
    some { elapsedSeconds := elapsedSeconds, avgLatency := avgLatency,
           avgConnectionTime := avgConnectionTime, p95Latency := p95,
           p99Latency := p99, messagesPerSec := messagesPerSec }

/-! ## Array objects -/

/-- The array objects alive at some moment: a reference is a position in the
store, the entry there the contents of that array. -/
abbrev Heap := List (List ℚ)

/-- Contents of the array behind a reference. -/
def Heap.read (h : Heap) (ref : Nat) : List ℚ :=
  (h[ref]?).getD []

/-- The spread `[...arr]`: a fresh array object with the same contents. -/
def Heap.spread (h : Heap) (arr : Nat) : Nat × Heap :=
  (h.length, h ++ [h.read arr])

/-- The in-place `.sort((a, b) => a - b)`: the contents behind the reference are
replaced by their ascending order. -/
def Heap.sortInPlace (h : Heap) (ref : Nat) : Heap :=
  h.set ref (sortAscending (h.read ref))

/-- Method `getPercentile(arr, percentile)` on array objects: the result and the
store after the call.  `sorted` is the fresh array of `[...arr]`, sorted in
place. -/
def getPercentileRef (h : Heap) (arr : Nat) (percentile : ℚ) : Option ℚ × Heap :=
  if (h.read arr).length = 0 then (some 0, h)
  else
    let copy := h.spread arr
    let h1 := copy.2.sortInPlace copy.1
    let sorted := copy.1
    let index : Int := ⌈fmul (fdiv percentile 100) ((h1.read sorted).length : ℚ)⌉ - 1
    (arrayAt (h1.read sorted) index, h1)

/-! ## The tester state and its collaborators -/

/-- What `simulateUser` and `createTestUser` receive as `userId`: a batch index
or the string `'admin'`. -/
inductive UserId where
  | admin
  | index (i : Nat)
deriving DecidableEq, Repr

/-- Text of a user id inside a template literal. -/
def UserId.text : UserId → String
  | .admin => "admin"
  | .index i => toString i

/-- The `user` object of a credential payload. -/
structure UserInfo where
  name : Option String := none
deriving DecidableEq, Repr

/-- The nested `data` wrapper of a credential payload. -/
structure AuthInner where
  token : Option String := none
  sessionId : Option String := none
  user : Option UserInfo := none
deriving DecidableEq, Repr

/-- The credential payload `authRes.data`, an object whose fields may be absent:
`{ token, sessionId, user }` directly, or the same under `data`. -/
structure AuthData where
  token : Option String := none
  sessionId : Option String := none
  user : Option UserInfo := none
  data : Option AuthInner := none
deriving DecidableEq, Repr

/-- The body `authRes.data` of an answered authentication request: an object
with the fields the tester reads, or a falsy value (`null`, an empty body).  A
truthy body that is not an object reads like an object without these fields. -/
inductive AuthBody where
  | empty
  | object (fields : AuthData)
deriving DecidableEq, Repr

/-- One entry of the array `promises` of `run()`: the call
`simulateUser(userId, roomId)` it came from and whether it is settled. -/
structure Launch where
  userId : Nat
  settled : Bool
deriving DecidableEq, Repr

/-- A rejected HTTP request: `error.response?.status` and `error.message`. -/
structure HttpError where
  status : Option Nat := none
  message : String := ""
deriving DecidableEq, Repr

/-- The body of the room-creation response: `response.data.data?._id` and
`response.data._id`. -/
structure RoomResponse where
  dataId : Option String := none
  id : Option String := none
deriving DecidableEq, Repr

/-- Events the channel delivers to the handlers of one session. -/
inductive ChannelEvent where
  | connect
  | joinRoomSuccess (participants : Option Nat)
  | joinRoomError (message : Option String) (json : String)
  | message (id : Option String)
  | messagesRead
  | error (text : String)
  | disconnect (reason : String)
  | connect_error (message : String)
deriving DecidableEq, Repr

/-- The socket object returned by `io(socketUrl, { auth: { token, sessionId }, ... })`. -/
structure Socket where
  owner : UserId
  token : String
  sessionId : String
deriving DecidableEq, Repr

/-- Payloads handed to `socket.emit`. -/
inductive Outbound where
  | joinRoom (roomId : Option String)
  | markMessagesAsRead (roomId : Option String) (messageIds : List String)
  | chatMessage (room : Option String) (type : String) (content : String)
deriving DecidableEq, Repr

/-- Outward effects of the tester, in the order they happen. -/
inductive Action where
  | io (socket : Socket)
  | on (socket : Socket) (event : String)
  | emit (socket : Socket) (payload : Outbound)
  | close (socket : Socket)
  | sleep (ms : ℚ)
  | resolve (userId : UserId)
deriving DecidableEq

/-- The outside world: the clock, the random source, the two HTTP endpoints and
the channel.  `clock k` is the value of the k-th clock read, `random k` the k-th
value of `Math.random()`. -/
structure Env where
  clock : Nat → Int
  toISOString : Int → String
  random : Nat → ℚ
  login : UserId → Except HttpError AuthBody
  register : UserId → Except HttpError AuthBody
  createRoom : Option String → Except HttpError RoomResponse
  events : UserId → List ChannelEvent
  emitFails : UserId → Nat → Option String

/-- The `config` object given to the constructor. -/
structure Config where
  apiUrl : String := ""
  socketUrl : String := ""
  roomId : Option String := none
  totalUsers : Nat := 100
  rampUpTime : Nat := 30
  duration : Nat := 0
  messages : Nat := 20
  batchSize : Nat := 10
  batchDelay : Nat := 1000
deriving DecidableEq, Repr

/-- One entry of `logBuffer`: `{ level, message: formattedMessage }`. -/
structure LogEntry where
  level : String
  message : String
deriving DecidableEq, Repr

/-- The fields of a `LoadTester`, with bookkeeping fields for what lives outside
the object: the effects so far, the numbers of clock and random reads made, and
the local array `promises` of `run()`. -/
structure Tester where
  config : Config
  metrics : Metrics := {}
  sockets : List Socket := []
  logBuffer : List LogEntry := []
  maxLogLines : Nat := 10
  trace : List Action := []
  clockReads : Nat := 0
  randomReads : Nat := 0
  promises : List Launch := []

/-- The constructor: zeroed metrics, `startTime: Date.now()`, no sockets, an
empty log buffer keeping the last 10 lines. -/
def Tester.new (env : Env) (config : Config) : Tester :=
  { config := config
    metrics := { startTime := env.clock 0 }
    clockReads := 1 }

/-- JavaScript truthiness of a possibly absent string. -/
def truthy : Option String → Bool
  | some s => s != ""
  | none => false

/-- The operator `a || b` on possibly absent strings. -/
def jsOr (a b : Option String) : Option String :=
  if truthy a then a else b

/-- Text of a possibly absent string inside a template literal. -/
def showText : Option String → String
  | some s => s
  | none => "undefined"

/-- The entry pushed by `log(level, message, ...args)` when the clock reads `now`:
`[HH:MM:SS] message args...`. -/
def formatEntry (env : Env) (now : Int) (level message : String) (args : List String) :
    LogEntry :=
  let timestamp := ((env.toISOString now).drop 11).take 8
  { level := level
    message := "[" ++ timestamp ++ "] " ++ message ++ " " ++ " ".intercalate args }

/-- Method `log(level, message, ...args)`: push the entry, then drop the oldest
one if the buffer is longer than `maxLogLines`. -/
def Tester.log (env : Env) (level message : String) (args : List String) (t : Tester) :
    Tester :=
  let pushed := t.logBuffer ++ [formatEntry env (env.clock t.clockReads) level message args]
  { t with
    logBuffer := if pushed.length > t.maxLogLines then pushed.tail else pushed
    clockReads := t.clockReads + 1 }

/-- Append an outward effect. -/
def Tester.act (a : Action) (t : Tester) : Tester :=
  { t with trace := t.trace ++ [a] }

/-- Method `sleep(ms)`, recorded as an effect. -/
def Tester.sleep (ms : ℚ) (t : Tester) : Tester :=
  t.act (.sleep ms)

/-- Statement `this.metrics.usersCreated++`. -/
def Tester.incUsersCreated (t : Tester) : Tester :=
  { t with metrics := { t.metrics with usersCreated := t.metrics.usersCreated + 1 } }

/-- Statement `this.metrics.errorsAuth++`. -/
def Tester.incErrorsAuth (t : Tester) : Tester :=
  { t with metrics := { t.metrics with errorsAuth := t.metrics.errorsAuth + 1 } }

/-- Statement `this.metrics.errorsConnection++`. -/
def Tester.incErrorsConnection (t : Tester) : Tester :=
  { t with metrics := { t.metrics with errorsConnection := t.metrics.errorsConnection + 1 } }

/-- Statement `this.metrics.errorsMessage++`. -/
def Tester.incErrorsMessage (t : Tester) : Tester :=
  { t with metrics := { t.metrics with errorsMessage := t.metrics.errorsMessage + 1 } }

/-- The failure branch of `createTestUser`: count an auth error, log it, return
`null`. -/
def createTestUserFailed (env : Env) (userId : UserId) (error : HttpError) (t : Tester) :
    Option AuthBody × Tester :=
  (none, (t.incErrorsAuth).log env "error"
    ("Failed to create/login user " ++ userId.text ++ ":") [error.message])

/-- Method `createTestUser(userId)`: log in; on status 401 or 404 register
instead; count the user and return the body `authRes.data`, whatever it is, on
success; count an auth error and return `null` (here `none`) on failure. -/
def createTestUser (env : Env) (userId : UserId) (t : Tester) : Option AuthBody × Tester :=
  let email := "loadtest-" ++ userId.text ++ "@test.com"
  match env.login userId with
  | .ok authData => (some authData, t.incUsersCreated)
  | .error loginError =>
    if loginError.status = some 401 ∨ loginError.status = some 404 then
      let t := t.log env "info" ("Registering new user: " ++ email) []
      match env.register userId with
      | .ok authData => (some authData, t.incUsersCreated)
      | .error error => createTestUserFailed env userId error t
    else createTestUserFailed env userId loginError t

/-- The `catch` of `createTestRoom`: log and rethrow. -/
def createTestRoomFailed (env : Env) (message : String) (t : Tester) :
    Except String (Option String) × Tester :=
  (.error message, t.log env "error" "Failed to create test room:" [message])

/-- Method `createTestRoom()`: the configured room if there is one; otherwise
create the admin user and ask the room endpoint for a new room.  The result is
the room id (possibly `undefined`) or the rethrown error. -/
def createTestRoom (env : Env) (t : Tester) : Except String (Option String) × Tester :=
  if truthy t.config.roomId then
    (.ok t.config.roomId,
      t.log env "info" ("Using existing room: " ++ showText t.config.roomId) [])
  else
    let t := t.log env "info" "Creating test room admin user..." []
    match createTestUser env .admin t with
    | (none, t) => createTestRoomFailed env "Failed to create admin user for room" t
    | (some .empty, t) => createTestRoomFailed env "Failed to create admin user for room" t
    | (some (.object adminAuth), t) =>
      let adminToken := jsOr adminAuth.token (adminAuth.data.bind (·.token))
      let t := t.log env "info" "Creating load test room..." []
      let t := { t with clockReads := t.clockReads + 1 }
      match env.createRoom adminToken with
      | .error error => createTestRoomFailed env error.message t
      | .ok response =>
        let roomId := jsOr response.dataId response.id
        (.ok roomId, t.log env "success" ("Load test room created: " ++ showText roomId) [])

/-! ## Sessions -/

/-- One clock read (`Date.now()` or `new Date()`) whose value is not kept. -/
def Tester.tick (t : Tester) : Tester :=
  { t with clockReads := t.clockReads + 1 }

/-- One pass of the loop body of `sendMessages`, for loop index `i`: the think
time, then the emit; a successful emit counts the message and pushes a latency
sample, a throwing one counts a message error and logs it. -/
def sendMessage (env : Env) (socket : Socket) (userId : UserId) (roomId : Option String)
    (messageCount i : Nat) (t : Tester) : Tester :=
  let minDelay : ℚ := 1000
  let maxDelay : ℚ := 3000
  let delay := fadd (fmul (env.random t.randomReads) (maxDelay - minDelay)) minDelay
  let t := { t with randomReads := t.randomReads + 1 }
  let t := t.sleep delay
  let startTime := env.clock t.clockReads
  let t := t.tick
  let content := "Load test message " ++ toString (i + 1) ++ "/" ++ toString messageCount ++
    " from user " ++ userId.text ++ " at " ++ env.toISOString (env.clock t.clockReads)
  let t := t.tick
  match env.emitFails userId i with
  | some message =>
    (t.incErrorsMessage).log env "error"
      ("User " ++ userId.text ++ " failed to send message " ++ toString (i + 1) ++ ":")
      [message]
  | none =>
    let t := t.act (.emit socket (.chatMessage roomId "text" content))
    let sample : ℚ := ((env.clock t.clockReads - startTime : Int) : ℚ)
    { t with
      metrics := { t.metrics with
        messagesSent := t.metrics.messagesSent + 1
        latencies := t.metrics.latencies ++ [sample] }
      clockReads := t.clockReads + 1 }

/-- Method `sendMessages(socket, userId, roomId)`: `config.messages` passes of
the loop, the 5000 ms drain wait, then `socket.close()`. -/
def sendMessages (env : Env) (socket : Socket) (userId : UserId) (roomId : Option String)
    (t : Tester) : Tester :=
  let messageCount := t.config.messages
  let t := (List.range messageCount).foldl
    (fun t i => sendMessage env socket userId roomId messageCount i t) t
  let t := t.sleep 5000
  t.act (.close socket)

/-- What the handlers registered by `simulateUser` close over. -/
structure Session where
  socket : Socket
  userId : UserId
  roomId : Option String
  connectStartTime : Int
  user : UserInfo

/-- The body of the handler registered for each channel event.  The send phase
started by `joinRoomSuccess` is run through at once. -/
def handleEvent (env : Env) (s : Session) (e : ChannelEvent) (t : Tester) : Tester :=
  match e with
  | .connect =>
    let connectionTime : Int := env.clock t.clockReads - s.connectStartTime
    let t := t.tick
    let t := { t with
      metrics := { t.metrics with
        connected := t.metrics.connected + 1
        connectionTimes := t.metrics.connectionTimes ++ [(connectionTime : ℚ)] } }
    let t := t.log env "success"
      ("User " ++ s.userId.text ++ " (" ++ showText s.user.name ++ ") connected in " ++
        toString connectionTime ++ "ms") []
    t.act (.emit s.socket (.joinRoom s.roomId))
  | .joinRoomSuccess participants =>
    let t := t.log env "info"
      ("User " ++ s.userId.text ++ " joined room " ++ showText s.roomId ++ " with " ++
        toString (participants.getD 0) ++ " participants") []
    sendMessages env s.socket s.userId s.roomId t
  | .joinRoomError message json =>
    let t := t.incErrorsConnection
    let t := t.log env "error" ("User " ++ s.userId.text ++ " failed to join room:")
      [showText (jsOr message (some json))]
    let t := t.act (.close s.socket)
    t.act (.resolve s.userId)
  | .message id =>
    let t := { t with
      metrics := { t.metrics with messagesReceived := t.metrics.messagesReceived + 1 } }
    if truthy id then
      let t := t.act (.emit s.socket (.markMessagesAsRead s.roomId [showText id]))
      { t with metrics := { t.metrics with messagesRead := t.metrics.messagesRead + 1 } }
    else t
  | .messagesRead =>
    { t with
      metrics := { t.metrics with readAcksReceived := t.metrics.readAcksReceived + 1 } }
  | .error text =>
    let t := t.incErrorsMessage
    t.log env "error" ("User " ++ s.userId.text ++ " received error:") [text]
  | .disconnect reason =>
    let t := { t with
      metrics := { t.metrics with disconnected := t.metrics.disconnected + 1 } }
    let t := t.log env "warn" ("User " ++ s.userId.text ++ " disconnected:") [reason]
    t.act (.resolve s.userId)
  | .connect_error message =>
    let t := t.incErrorsConnection
    let t := t.log env "error" ("User " ++ s.userId.text ++ " connection error:") [message]
    let t := t.act (.close s.socket)
    t.act (.resolve s.userId)

/-- The events whose handler calls `resolve()`. -/
def ChannelEvent.resolves : ChannelEvent → Bool
  | .joinRoomError _ _ => true
  | .disconnect _ => true
  | .connect_error _ => true
  | _ => false

/-- The event names passed to `socket.on`, in registration order. -/
def handlerNames : List String :=
  ["connect", "joinRoomSuccess", "joinRoomError", "message", "messagesRead", "error",
    "disconnect", "connect_error"]

/-- Method `simulateUser(userId, roomId)` up to the point where the promise is
returned: authenticate, read the credentials, open the socket and register the
handlers.  `none` is a plain `return` (no socket, no handlers); `some` is the
session whose promise waits for the channel.  A `null` from `createTestUser` and
a falsy body both leave at `if (!authData) return;`.  No modelled step throws,
so the outer `catch` is never entered. -/
def simulateUser (env : Env) (userId : UserId) (roomId : Option String) (t : Tester) :
    Option Session × Tester :=
  let connectStartTime := env.clock t.clockReads
  let t := t.tick
  match createTestUser env userId t with
  | (none, t) => (none, t)
  | (some .empty, t) => (none, t)
  | (some (.object authData), t) =>
    let token := jsOr authData.token (authData.data.bind (·.token))
    let sessionId := jsOr authData.sessionId (authData.data.bind (·.sessionId))
    let user : UserInfo :=
      ((authData.user).orElse fun _ => authData.data.bind (·.user)).getD
        { name := some ("User-" ++ userId.text) }
    if !truthy token || !truthy sessionId then
      (none, (t.incErrorsAuth).log env "error"
        ("User " ++ userId.text ++ " missing token/sessionId: token=" ++ showText token ++
          ", sessionId=" ++ showText sessionId) [])
    else
      let socket : Socket :=
        { owner := userId, token := showText token, sessionId := showText sessionId }
      let t := t.act (.io socket)
      let t := { t with sockets := t.sockets ++ [socket] }
      let t := handlerNames.foldl (fun t name => t.act (.on socket name)) t
      (some { socket := socket, userId := userId, roomId := roomId,
              connectStartTime := connectStartTime, user := user }, t)

/-- Deliver a sequence of channel events to the handlers of a session. -/
def deliver (env : Env) (s : Session) (events : List ChannelEvent) (t : Tester) : Tester :=
  events.foldl (fun t e => handleEvent env s e t) t

/-- One whole session: `simulateUser`, then the events the channel delivers to
it.  The flag tells whether the promise of `simulateUser` was settled. -/
def runSession (env : Env) (userId : UserId) (roomId : Option String) (t : Tester) :
    Bool × Tester :=
  match simulateUser env userId roomId t with
  | (none, t) => (true, t)
  | (some s, t) => ((env.events userId).any ChannelEvent.resolves,
      deliver env s (env.events userId) t)

/-! ## The batch scheduler -/

/-- The value of `Math.ceil(totalUsers / batchSize)`. -/
inductive BatchCount where
  | finite (n : Nat)
  | infinity
  | nan
deriving DecidableEq, Repr

/-- `Math.ceil(totalUsers / batchSize)` on non-negative integers. -/
def totalBatches (totalUsers batchSize : Nat) : BatchCount :=
  if batchSize = 0 then (if totalUsers = 0 then .nan else .infinity)
  else .finite ⌈(totalUsers : ℚ) / (batchSize : ℚ)⌉₊

/-- Text of the batch count inside a template literal. -/
def BatchCount.text : BatchCount → String
  | .finite n => toString n
  | .infinity => "Infinity"
  | .nan => "NaN"

/-- How many times `for (let batch = 0; batch < totalBatches; batch++)` runs its
body; `none` when it never stops. -/
def BatchCount.iterations : BatchCount → Option Nat
  | .finite n => some n
  | .infinity => none
  | .nan => some 0

/-- One pass of the batch loop, as data. -/
structure Batch where
  batchNum : Nat
  batchStart : Nat
  batchEnd : Nat
  users : List Nat
  sleeps : Bool
deriving DecidableEq, Repr

/-- The inner loop `for (let i = batchStart; i < batchEnd; i++)`: the indices
handed to `simulateUser`, in order. -/
def batchUsers (batchStart batchEnd : Nat) : List Nat :=
  List.range' batchStart (batchEnd - batchStart)

/-- The batch loop of `run()` run `iterations` times: for each `batch` its
`batchStart`, `batchEnd`, `batchNum`, the users it launches, and whether the
scheduler sleeps after it (`batch < totalBatches - 1`). -/
def batchPlan (totalUsers batchSize iterations : Nat) : List Batch :=
  (List.range iterations).map fun batch =>
    let batchStart := batch * batchSize
    let batchEnd := min (batchStart + batchSize) totalUsers
    { batchNum := batch + 1
      batchStart := batchStart
      batchEnd := batchEnd
      users := batchUsers batchStart batchEnd
      sleeps := decide ((batch : Int) < (iterations : Int) - 1) }

/-- The user indices `simulateUser` is launched for, in launch order. -/
def launched (totalUsers batchSize iterations : Nat) : List Nat :=
  (batchPlan totalUsers batchSize iterations).flatMap (·.users)

/-- The statement `promises.push(this.simulateUser(i, roomId))`: the session of
user `i`, and its promise pushed on `promises`. -/
def launch (env : Env) (roomId : Option String) (t : Tester) (i : Nat) : Tester :=
  let r := runSession env (.index i) roomId t
  { r.2 with promises := r.2.promises ++ [{ userId := i, settled := r.1 }] }

/-- Carry out one batch: log it, launch each of its users, then sleep
`batchDelay` unless it is the last batch. -/
def spawnBatch (env : Env) (roomId : Option String) (count : BatchCount)
    (t : Tester) (b : Batch) : Tester :=
  let t := t.log env "info"
    ("Spawning batch " ++ toString b.batchNum ++ "/" ++ count.text ++ " (users " ++
      toString b.batchStart ++ "-" ++ toString ((b.batchEnd : Int) - 1) ++ ")...") []
  let t := b.users.foldl (fun t i => launch env roomId t i) t
  if b.sleeps then t.sleep (t.config.batchDelay : ℚ) else t

/-- How `run()` ends: the process exits with a code, or it never gets there
(an endless batch loop, or a session whose promise is never settled). -/
inductive RunResult where
  | exit (code : Nat) (t : Tester)
  | pending (t : Tester)

/-- The tester state a run ends in. -/
def RunResult.tester : RunResult → Tester
  | .exit _ t => t
  | .pending t => t

/-- Method `run()`.  Sessions are run one after the other in launch order; the
counters are sums, so their final values do not depend on how the sessions
interleave.  A call of `printMetrics()` only reads the state (and never throws),
so it shows here as its clock read. -/
def run (env : Env) (t : Tester) : RunResult :=
  let totalUsers := t.config.totalUsers
  let batchSize := t.config.batchSize
  let count := totalBatches totalUsers batchSize
  match createTestRoom env t with
  | (.error _, t) =>
    .exit 1 (t.log env "error" "Failed to setup test room. Aborting test." [])
  | (.ok roomId, t) =>
    let t := t.log env "info"
      ("Starting load test: " ++ toString totalUsers ++ " users in " ++ count.text ++
        " batches") []
    let t := t.log env "info"
      ("Batch configuration: " ++ toString batchSize ++ " users every " ++
        toString t.config.batchDelay ++ "ms") []
    let t := t.log env "info" ("Target room: " ++ showText roomId) []
    let t := t.tick
    let t := { t with promises := [] }
    match count.iterations with
    | none => .pending t
    | some n =>
      let t := (batchPlan totalUsers batchSize n).foldl (spawnBatch env roomId count) t
      let t := t.log env "info" "All users spawned, waiting for completion..." []
      if t.promises.all (·.settled) then .exit 0 t.tick else .pending t

/-- The two effects of one successful pass of the send loop. -/
def sendEffects (socket : Socket) (roomId : Option String) (p : ℚ × String) : List Action :=
  [.sleep p.1, .emit socket (.chatMessage roomId "text" p.2)]

/-- The channel events of kind `disconnect`. -/
def ChannelEvent.isDisconnect : ChannelEvent → Bool
  | .disconnect _ => true
  | _ => false

/-- The arguments of one call of `log`. -/
structure LogCall where
  level : String
  message : String
  args : List String := []
deriving DecidableEq, Repr

/-- A sequence of `log` calls, one after the other. -/
def logAll (env : Env) (calls : List LogCall) (t : Tester) : Tester :=
  calls.foldl (fun t c => t.log env c.level c.message c.args) t

/-- The entries a sequence of `log` calls pushes, the first call making clock
read number `k`. -/
def loggedEntries (env : Env) (k : Nat) : List LogCall → List LogEntry
  | [] => []
  | c :: cs => formatEntry env (env.clock k) c.level c.message c.args ::
      loggedEntries env (k + 1) cs

/-- Whether `createTestUser` gets a credential object for this user: the login
answers with one, or it is rejected with 401 or 404 and the registration answers
with one. -/
def authSucceeds (env : Env) (userId : UserId) : Bool :=
  match env.login userId with
  | .ok (.object _) => true
  | .ok .empty => false
  | .error e =>
    (e.status = some 401 ∨ e.status = some 404) &&
      (match env.register userId with
       | .ok (.object _) => true
       | .ok .empty => false
       | .error _ => false)

/-! ## Sample worlds -/

/-- The samples `1, 2, ..., 25`. -/
def oneToTwentyFive : List ℚ :=
  [1, 2, 3, 4, 5, 6, 7, 8, 9, 10, 11, 12, 13, 14, 15, 16, 17, 18, 19, 20, 21, 22, 23, 24, 25]

/-- A credential payload with both credentials. -/
def fullAuth : AuthData :=
  { token := some "tok", sessionId := some "sid", user := some { name := some "Tester" } }

/-- A credential payload with a token but no session identifier anywhere. -/
def tokenOnlyAuth : AuthData :=
  { token := some "tok" }

/-- A world whose login always answers with the object `auth`, whose room
endpoint answers with room `r1`, where no emit throws and every session sees
`events`. -/
def sampleEnv (auth : AuthData) (events : List ChannelEvent) : Env :=
  { clock := fun k => (k : Int)
    toISOString := fun _ => "1970-01-01T00:00:00.000Z"
    random := fun _ => 1 / 2
    login := fun _ => .ok (.object auth)
    register := fun _ => .ok (.object auth)
    createRoom := fun _ => .ok { id := some "r1" }
    events := fun _ => events
    emitFails := fun _ _ => none }

/-- A world like `sampleEnv` whose login answers 200 with an empty body. -/
def emptyBodyEnv : Env :=
  { sampleEnv {} [] with login := fun _ => .ok .empty }

/-- The end-to-end configuration of the spec: 3 users, one batch of 3, no delay,
one message each, room created on the fly. -/
def sampleConfig : Config :=
  { totalUsers := 3, batchSize := 3, batchDelay := 0, messages := 1 }

/-- A socket and a session for user 0. -/
def sampleSocket : Socket :=
  { owner := .index 0, token := "tok", sessionId := "sid" }

/-- The session of user 0 on `sampleSocket`. -/
def sampleSession : Session :=
  { socket := sampleSocket, userId := .index 0, roomId := some "r1",
    connectStartTime := 0, user := { name := some "Tester" } }

/-- Events of a session that connects, joins, and is then disconnected. -/
def sampleEvents : List ChannelEvent :=
  [.connect, .joinRoomSuccess (some 1), .disconnect "io client disconnect"]

/-- The end-to-end configuration with a room given in advance. -/
def sampleConfigWithRoom : Config :=
  { sampleConfig with roomId := some "room-1" }

/-! ## Theorems -/

/-! ### Rounding to doubles -/

theorem floor_le_roundHalfEven (y : ℚ) : ⌊y⌋ ≤ roundHalfEven y := by
  unfold roundHalfEven
  simp only
  split_ifs <;> omega

theorem roundHalfEven_le_floor_succ (y : ℚ) : roundHalfEven y ≤ ⌊y⌋ + 1 := by
  unfold roundHalfEven
  simp only
  split_ifs <;> omega

theorem roundHalfEven_le (y : ℚ) (k : Int) (h : y ≤ (k : ℚ)) : roundHalfEven y ≤ k := by
  have hf : (⌊y⌋ : ℚ) ≤ y := Int.floor_le y
  have hfk : ⌊y⌋ ≤ k := by exact_mod_cast hf.trans h
  unfold roundHalfEven
  simp only
  by_cases h1 : y - (⌊y⌋ : ℚ) < 1 / 2
  · rw [if_pos h1]; exact hfk
  · have hlt : ⌊y⌋ < k := by
      have : (⌊y⌋ : ℚ) < (k : ℚ) := by linarith
      exact_mod_cast this
    rw [if_neg h1]
    split_ifs <;> omega

theorem le_roundHalfEven (y : ℚ) (k : Int) (h : (k : ℚ) ≤ y) : k ≤ roundHalfEven y :=
  (Int.le_floor.mpr h).trans (floor_le_roundHalfEven y)

theorem roundHalfEven_near (y : ℚ) : |(roundHalfEven y : ℚ) - y| ≤ 1 / 2 := by
  have hf : (⌊y⌋ : ℚ) ≤ y := Int.floor_le y
  have hf2 : y < (⌊y⌋ : ℚ) + 1 := Int.lt_floor_add_one y
  unfold roundHalfEven
  simp only
  rw [abs_le]
  by_cases h1 : y - (⌊y⌋ : ℚ) < 1 / 2
  · rw [if_pos h1]; constructor <;> linarith
  · rw [if_neg h1]
    by_cases h2 : 1 / 2 < y - (⌊y⌋ : ℚ)
    · rw [if_pos h2]; push_cast; constructor <;> linarith
    · rw [if_neg h2]
      have : y - (⌊y⌋ : ℚ) = 1 / 2 := le_antisymm (not_lt.mp h2) (not_lt.mp h1)
      split_ifs
      · constructor <;> linarith
      · push_cast; constructor <;> linarith

theorem roundHalfEven_eval (y : ℚ) (m : Int) (h1 : (m : ℚ) - 1 / 2 < y)
    (h2 : y < (m : ℚ) + 1 / 2) : roundHalfEven y = m := by
  have h := abs_le.mp (roundHalfEven_near y)
  have ha : ((roundHalfEven y : Int) : ℚ) < (m : ℚ) + 1 := by linarith [h.1, h.2]
  have hb : (m : ℚ) - 1 < ((roundHalfEven y : Int) : ℚ) := by linarith [h.1, h.2]
  have ha' : roundHalfEven y < m + 1 := by exact_mod_cast ha
  have hb' : m - 1 < roundHalfEven y := by exact_mod_cast hb
  omega

theorem two_zpow_pos (z : Int) : (0 : ℚ) < (2 : ℚ) ^ z := zpow_pos (by norm_num) z

theorem log_lt_of_lt (x : ℚ) (hx : 0 < x) (z : Int) (h : x < (2 : ℚ) ^ z) : Int.log 2 x < z :=
  (Int.lt_zpow_iff_log_lt (b := 2) (by norm_num) hx).mp (by simpa using h)

theorem le_log_of_le (x : ℚ) (hx : 0 < x) (z : Int) (h : (2 : ℚ) ^ z ≤ x) : z ≤ Int.log 2 x :=
  (Int.zpow_le_iff_le_log (b := 2) (by norm_num) hx).mp (by simpa using h)

theorem zpow_log_le (x : ℚ) (hx : 0 < x) : (2 : ℚ) ^ Int.log 2 x ≤ x := by
  simpa using Int.zpow_log_le_self (b := 2) (by norm_num) hx

/-- A power of two with a larger exponent is a whole multiple of one with a
smaller exponent. -/
theorem zpow_split (q q0 : Int) (h : q ≤ q0) :
    ∃ n : Nat, (2 : ℚ) ^ q0 = ((2 ^ n : Int) : ℚ) * (2 : ℚ) ^ q := by
  obtain ⟨n, hn⟩ := Int.eq_ofNat_of_zero_le (sub_nonneg.mpr h)
  refine ⟨n, ?_⟩
  have : q0 = (n : Int) + q := by omega
  rw [this, zpow_add₀ (by norm_num : (2 : ℚ) ≠ 0), zpow_natCast]
  push_cast
  rfl

theorem toDouble_zero : toDouble 0 = 0 := by
  simp [toDouble, roundHalfEven]

theorem toDouble_nonneg (x : ℚ) (hx : 0 ≤ x) : 0 ≤ toDouble x := by
  unfold toDouble
  have hq := two_zpow_pos (ulpExponent x)
  have : (0 : Int) ≤ roundHalfEven (x / (2 : ℚ) ^ ulpExponent x) :=
    le_roundHalfEven _ 0 (by simpa using div_nonneg hx hq.le)
  have : (0 : ℚ) ≤ (roundHalfEven (x / (2 : ℚ) ^ ulpExponent x) : ℚ) := by exact_mod_cast this
  positivity

theorem toDouble_nonpos (x : ℚ) (hx : x ≤ 0) : toDouble x ≤ 0 := by
  unfold toDouble
  have hq := two_zpow_pos (ulpExponent x)
  have : roundHalfEven (x / (2 : ℚ) ^ ulpExponent x) ≤ (0 : Int) :=
    roundHalfEven_le _ 0 (by simpa using div_nonpos_of_nonpos_of_nonneg hx hq.le)
  have : (roundHalfEven (x / (2 : ℚ) ^ ulpExponent x) : ℚ) ≤ 0 := by exact_mod_cast this
  exact mul_nonpos_of_nonpos_of_nonneg this hq.le

/-- Rounding does not step over a double above the argument. -/
theorem toDouble_le_of_le (x f : ℚ) (m q0 : Int) (hx : 0 < x) (hxf : x ≤ f)
    (hf : f = (m : ℚ) * (2 : ℚ) ^ q0) (hm : m < 2 ^ 53) (hq : -1074 ≤ q0) :
    toDouble x ≤ f := by
  have hq0 := two_zpow_pos q0
  have hlt : x < (2 : ℚ) ^ (53 + q0) := by
    rw [zpow_add₀ (by norm_num : (2 : ℚ) ≠ 0)]
    have : (m : ℚ) < (2 : ℚ) ^ (53 : Int) := by
      calc (m : ℚ) < ((2 ^ 53 : Int) : ℚ) := by exact_mod_cast hm
        _ = (2 : ℚ) ^ (53 : Int) := by norm_num
    calc x ≤ (m : ℚ) * (2 : ℚ) ^ q0 := hf ▸ hxf
      _ < (2 : ℚ) ^ (53 : Int) * (2 : ℚ) ^ q0 := by
        exact mul_lt_mul_of_pos_right this hq0
  have hlog := log_lt_of_lt x hx _ hlt
  have hle : ulpExponent x ≤ q0 := by
    unfold ulpExponent
    rw [abs_of_pos hx]
    omega
  obtain ⟨n, hn⟩ := zpow_split _ _ hle
  have hq := two_zpow_pos (ulpExponent x)
  have hk : x / (2 : ℚ) ^ ulpExponent x ≤ ((m * 2 ^ n : Int) : ℚ) := by
    rw [div_le_iff₀ hq]
    push_cast
    calc x ≤ (m : ℚ) * (2 : ℚ) ^ q0 := hf ▸ hxf
      _ = (m : ℚ) * 2 ^ n * (2 : ℚ) ^ ulpExponent x := by rw [hn]; push_cast; ring
  have hr := roundHalfEven_le _ _ hk
  have hr' : (roundHalfEven (x / (2 : ℚ) ^ ulpExponent x) : ℚ) ≤ ((m * 2 ^ n : Int) : ℚ) := by
    exact_mod_cast hr
  unfold toDouble
  calc (roundHalfEven (x / (2 : ℚ) ^ ulpExponent x) : ℚ) * (2 : ℚ) ^ ulpExponent x
      ≤ ((m * 2 ^ n : Int) : ℚ) * (2 : ℚ) ^ ulpExponent x :=
        mul_le_mul_of_nonneg_right hr' hq.le
    _ = f := by rw [hf, hn]; push_cast; ring

/-- Rounding does not step over a double below the argument. -/
theorem le_toDouble_of_le (x f : ℚ) (m q0 : Int) (hfx : f ≤ x)
    (hf : f = (m : ℚ) * (2 : ℚ) ^ q0) (hm0 : 0 < m) (hm : m < 2 ^ 53) (hq : -1074 ≤ q0) :
    f ≤ toDouble x := by
  have hq0 := two_zpow_pos q0
  have hf0 : 0 < f := by
    rw [hf]
    have : (0 : ℚ) < (m : ℚ) := by exact_mod_cast hm0
    positivity
  have hx : 0 < x := lt_of_lt_of_le hf0 hfx
  have hq' := two_zpow_pos (ulpExponent x)
  by_cases hle : ulpExponent x ≤ q0
  · obtain ⟨n, hn⟩ := zpow_split _ _ hle
    have hk : ((m * 2 ^ n : Int) : ℚ) ≤ x / (2 : ℚ) ^ ulpExponent x := by
      rw [le_div_iff₀ hq']
      push_cast
      calc (m : ℚ) * 2 ^ n * (2 : ℚ) ^ ulpExponent x = (m : ℚ) * (2 : ℚ) ^ q0 := by
            rw [hn]; push_cast; ring
        _ ≤ x := hf ▸ hfx
    have hr := le_roundHalfEven _ _ hk
    have hr' : ((m * 2 ^ n : Int) : ℚ) ≤ (roundHalfEven (x / (2 : ℚ) ^ ulpExponent x) : ℚ) := by
      exact_mod_cast hr
    unfold toDouble
    calc f = ((m * 2 ^ n : Int) : ℚ) * (2 : ℚ) ^ ulpExponent x := by
          rw [hf, hn]; push_cast; ring
      _ ≤ _ := mul_le_mul_of_nonneg_right hr' hq'.le
  · have hulp : ulpExponent x = Int.log 2 x - 52 := by
      unfold ulpExponent at hle ⊢
      rw [abs_of_pos hx] at hle ⊢
      omega
    have hlog : 53 + q0 ≤ Int.log 2 x := by omega
    have hflt : f < (2 : ℚ) ^ Int.log 2 x := by
      have h1 : (m : ℚ) < (2 : ℚ) ^ (53 : Int) := by
        calc (m : ℚ) < ((2 ^ 53 : Int) : ℚ) := by exact_mod_cast hm
          _ = (2 : ℚ) ^ (53 : Int) := by norm_num
      calc f = (m : ℚ) * (2 : ℚ) ^ q0 := hf
        _ < (2 : ℚ) ^ (53 : Int) * (2 : ℚ) ^ q0 := mul_lt_mul_of_pos_right h1 hq0
        _ = (2 : ℚ) ^ (53 + q0) := by rw [zpow_add₀ (by norm_num : (2 : ℚ) ≠ 0)]
        _ ≤ (2 : ℚ) ^ Int.log 2 x := zpow_le_zpow_right₀ (by norm_num) hlog
    have hsplit : (2 : ℚ) ^ Int.log 2 x = ((2 ^ 52 : Int) : ℚ) * (2 : ℚ) ^ ulpExponent x := by
      have : Int.log 2 x = 52 + ulpExponent x := by omega
      rw [this, zpow_add₀ (by norm_num : (2 : ℚ) ≠ 0)]
      norm_num
    have hk : ((2 ^ 52 : Int) : ℚ) ≤ x / (2 : ℚ) ^ ulpExponent x := by
      rw [le_div_iff₀ hq', ← hsplit]
      exact zpow_log_le x hx
    have hr := le_roundHalfEven _ _ hk
    have hr' : ((2 ^ 52 : Int) : ℚ) ≤ (roundHalfEven (x / (2 : ℚ) ^ ulpExponent x) : ℚ) := by
      exact_mod_cast hr
    unfold toDouble
    calc f ≤ (2 : ℚ) ^ Int.log 2 x := hflt.le
      _ = ((2 ^ 52 : Int) : ℚ) * (2 : ℚ) ^ ulpExponent x := hsplit
      _ ≤ _ := mul_le_mul_of_nonneg_right hr' hq'.le

/-- A double is its own rounding. -/
theorem toDouble_of_double (f : ℚ) (m q0 : Int) (hf : f = (m : ℚ) * (2 : ℚ) ^ q0)
    (hm0 : 0 < m) (hm : m < 2 ^ 53) (hq : -1074 ≤ q0) : toDouble f = f := by
  have hf0 : 0 < f := by
    rw [hf]
    have : (0 : ℚ) < (m : ℚ) := by exact_mod_cast hm0
    have := two_zpow_pos q0
    positivity
  exact le_antisymm (toDouble_le_of_le f f m q0 hf0 le_rfl hf hm hq)
    (le_toDouble_of_le f f m q0 le_rfl hf hm0 hm hq)

/-- A natural number below `2^53` is a double. -/
theorem toDouble_natCast (n : Nat) (hn : n < 2 ^ 53) : toDouble (n : ℚ) = (n : ℚ) := by
  rcases Nat.eq_zero_or_pos n with h | h
  · subst h; simpa using toDouble_zero
  · exact toDouble_of_double (n : ℚ) (n : Int) 0 (by simp) (by exact_mod_cast h)
      (by exact_mod_cast hn) (by norm_num)

/-- In the normal range rounding moves a value by at most half a unit in the
last place, which is at most the value times `2^-53`. -/
theorem toDouble_near (x : ℚ) (hx : (2 : ℚ) ^ (-1022 : Int) ≤ x) :
    |toDouble x - x| ≤ x * (2 : ℚ) ^ (-53 : Int) := by
  have hx0 : 0 < x := lt_of_lt_of_le (two_zpow_pos _) hx
  have hlog : -1022 ≤ Int.log 2 x := le_log_of_le x hx0 _ hx
  have hulp : ulpExponent x = Int.log 2 x - 52 := by
    unfold ulpExponent
    rw [abs_of_pos hx0]
    omega
  have hq := two_zpow_pos (ulpExponent x)
  have hr := roundHalfEven_near (x / (2 : ℚ) ^ ulpExponent x)
  have hsplit : (2 : ℚ) ^ ulpExponent x = (2 : ℚ) ^ Int.log 2 x * (2 : ℚ) ^ (-52 : Int) := by
    rw [hulp, sub_eq_add_neg, zpow_add₀ (by norm_num : (2 : ℚ) ≠ 0)]
  have hbound : (2 : ℚ) ^ ulpExponent x ≤ x * (2 : ℚ) ^ (-52 : Int) := by
    rw [hsplit]
    exact mul_le_mul_of_nonneg_right (zpow_log_le x hx0) (two_zpow_pos _).le
  have heq : toDouble x - x =
      ((roundHalfEven (x / (2 : ℚ) ^ ulpExponent x) : ℚ) - x / (2 : ℚ) ^ ulpExponent x) *
        (2 : ℚ) ^ ulpExponent x := by
    unfold toDouble
    field_simp
  rw [heq, abs_mul, abs_of_pos hq]
  have h53 : (2 : ℚ) ^ (-53 : Int) = (1 / 2) * (2 : ℚ) ^ (-52 : Int) := by norm_num
  calc |(roundHalfEven (x / (2 : ℚ) ^ ulpExponent x) : ℚ) - x / (2 : ℚ) ^ ulpExponent x| *
        (2 : ℚ) ^ ulpExponent x
      ≤ (1 / 2) * (2 : ℚ) ^ ulpExponent x := mul_le_mul_of_nonneg_right hr hq.le
    _ ≤ (1 / 2) * (x * (2 : ℚ) ^ (-52 : Int)) := by
        exact mul_le_mul_of_nonneg_left hbound (by norm_num)
    _ = x * (2 : ℚ) ^ (-53 : Int) := by rw [h53]; ring

/-- A non-negative value below half the smallest positive double rounds to 0. -/
theorem toDouble_underflow (x : ℚ) (hx0 : 0 ≤ x) (hx : x < (2 : ℚ) ^ (-1075 : Int)) :
    toDouble x = 0 := by
  rcases eq_or_lt_of_le hx0 with h | h
  · rw [← h]; exact toDouble_zero
  · have hlog := log_lt_of_lt x h _ hx
    have hulp : ulpExponent x = -1074 := by
      unfold ulpExponent
      rw [abs_of_pos h]
      omega
    have hq := two_zpow_pos (-1074 : Int)
    have hr : roundHalfEven (x / (2 : ℚ) ^ (-1074 : Int)) = 0 := by
      apply roundHalfEven_eval
      · have : 0 ≤ x / (2 : ℚ) ^ (-1074 : Int) := div_nonneg hx0 hq.le
        simp only [Int.cast_zero]; linarith
      · rw [Int.cast_zero, zero_add, div_lt_iff₀ hq]
        calc x < (2 : ℚ) ^ (-1075 : Int) := hx
          _ = 1 / 2 * (2 : ℚ) ^ (-1074 : Int) := by
            rw [show (-1075 : Int) = -1 + -1074 by norm_num,
              zpow_add₀ (by norm_num : (2 : ℚ) ≠ 0)]
            norm_num
    unfold toDouble
    rw [hulp, hr]
    simp

/-- The rounding of a value in the normal range, from its binary exponent and
the integer its scaled value rounds to. -/
theorem toDouble_eval (x : ℚ) (e m : Int) (he1 : (2 : ℚ) ^ e ≤ x) (he2 : x < (2 : ℚ) ^ (e + 1))
    (he : -1022 ≤ e) (hm1 : (m : ℚ) - 1 / 2 < x / (2 : ℚ) ^ (e - 52))
    (hm2 : x / (2 : ℚ) ^ (e - 52) < (m : ℚ) + 1 / 2) :
    toDouble x = (m : ℚ) * (2 : ℚ) ^ (e - 52) := by
  have hx0 : 0 < x := lt_of_lt_of_le (two_zpow_pos _) he1
  have h1 := le_log_of_le x hx0 _ he1
  have h2 := log_lt_of_lt x hx0 _ he2
  have hulp : ulpExponent x = e - 52 := by
    unfold ulpExponent
    rw [abs_of_pos hx0]
    omega
  unfold toDouble
  rw [hulp, roundHalfEven_eval _ m hm1 hm2]

/-! ### Percentiles -/

/-- A ceiling is settled by the two bounds around it. -/
theorem ceil_of_bounds (q : ℚ) (z : Int) (h1 : (z : ℚ) - 1 < q) (h2 : q ≤ (z : ℚ)) :
    ⌈q⌉ = z := by
  rw [Int.ceil_eq_iff]
  exact ⟨h1, h2⟩

/-- A floor is settled by the two bounds around it. -/
theorem floor_of_bounds (q : ℚ) (z : Int) (h1 : (z : ℚ) ≤ q) (h2 : q < (z : ℚ) + 1) :
    ⌊q⌋ = z := by
  rw [Int.floor_eq_iff]
  exact ⟨h1, h2⟩

theorem sortAscending_perm (arr : List ℚ) : (sortAscending arr).Perm arr :=
  List.perm_insertionSort _ arr

theorem sortAscending_sorted (arr : List ℚ) : List.Sorted (· ≤ ·) (sortAscending arr) :=
  List.sorted_insertionSort _ arr

theorem sortAscending_length (arr : List ℚ) : (sortAscending arr).length = arr.length :=
  (sortAscending_perm arr).length_eq

/-- For an array of fewer than `2^53` entries and a percentile whose hundredth
is at least the smallest positive double and at most 1, the double product
`(p / 100) * n` is positive and at most `n`. -/
theorem product_bounds (n : Nat) (p : ℚ) (hn0 : 0 < n) (hn : n < 2 ^ 53)
    (hp0 : (2 : ℚ) ^ (-1074 : Int) ≤ p / 100) (hp : p ≤ 100) :
    0 < fmul (fdiv p 100) (n : ℚ) ∧ fmul (fdiv p 100) (n : ℚ) ≤ (n : ℚ) := by
  have hmin := two_zpow_pos (-1074 : Int)
  have hn1 : (1 : ℚ) ≤ (n : ℚ) := by exact_mod_cast hn0
  have hq0 : 0 < p / 100 := lt_of_lt_of_le hmin hp0
  have hq1 : p / 100 ≤ 1 := by
    rw [div_le_one (by norm_num)]; exact hp
  have ha0 : (2 : ℚ) ^ (-1074 : Int) ≤ fdiv p 100 :=
    le_toDouble_of_le (p / 100) _ 1 (-1074) hp0 (by simp) (by norm_num) (by norm_num)
      (by norm_num)
  have ha1 : fdiv p 100 ≤ 1 :=
    toDouble_le_of_le (p / 100) 1 1 0 hq0 hq1 (by simp) (by norm_num) (by norm_num)
  have hx0 : (2 : ℚ) ^ (-1074 : Int) ≤ fdiv p 100 * (n : ℚ) := by
    calc (2 : ℚ) ^ (-1074 : Int) = (2 : ℚ) ^ (-1074 : Int) * 1 := by ring
      _ ≤ fdiv p 100 * (n : ℚ) := mul_le_mul ha0 hn1 (by norm_num) (hmin.le.trans ha0)
  have hx1 : fdiv p 100 * (n : ℚ) ≤ (n : ℚ) := by
    calc fdiv p 100 * (n : ℚ) ≤ 1 * (n : ℚ) :=
          mul_le_mul_of_nonneg_right ha1 (by linarith)
      _ = (n : ℚ) := by ring
  constructor
  · exact lt_of_lt_of_le hmin
      (le_toDouble_of_le _ _ 1 (-1074) hx0 (by simp) (by norm_num) (by norm_num)
        (by norm_num))
  · exact toDouble_le_of_le _ (n : ℚ) (n : Int) 0 (lt_of_lt_of_le hmin hx0) hx1 (by simp)
      (by exact_mod_cast hn) (by norm_num)

/-- For a percentile whose hundredth lies between `1/2` and `127/128` (as 95 and
99 do) the double product `(p / 100) * n` is positive and at most `n`, whatever
the length. -/
theorem product_bounds_high (n : Nat) (p : ℚ) (hn0 : 0 < n)
    (hp1 : 1 / 2 ≤ p / 100) (hp2 : p / 100 ≤ 127 / 128) :
    0 < fmul (fdiv p 100) (n : ℚ) ∧ fmul (fdiv p 100) (n : ℚ) ≤ (n : ℚ) := by
  have hn1 : (1 : ℚ) ≤ (n : ℚ) := by exact_mod_cast hn0
  have ha0 : (1 : ℚ) / 2 ≤ fdiv p 100 :=
    le_toDouble_of_le (p / 100) _ 1 (-1) hp1 (by norm_num) (by norm_num) (by norm_num)
      (by norm_num)
  have ha1 : fdiv p 100 ≤ 127 / 128 :=
    toDouble_le_of_le (p / 100) _ 127 (-7) (by linarith) hp2 (by norm_num) (by norm_num)
      (by norm_num)
  have hx0 : (1 : ℚ) / 2 ≤ fdiv p 100 * (n : ℚ) := by
    calc (1 : ℚ) / 2 = 1 / 2 * 1 := by ring
      _ ≤ fdiv p 100 * (n : ℚ) := mul_le_mul ha0 hn1 (by norm_num) (by linarith)
  have hnorm : (2 : ℚ) ^ (-1022 : Int) ≤ fdiv p 100 * (n : ℚ) := by
    have : (2 : ℚ) ^ (-1022 : Int) ≤ (2 : ℚ) ^ (-1 : Int) :=
      zpow_le_zpow_right₀ (by norm_num) (by norm_num)
    have h2 : (2 : ℚ) ^ (-1 : Int) = 1 / 2 := by norm_num
    exact (this.trans (le_of_eq h2)).trans hx0
  have hnear := (abs_le.mp (toDouble_near _ hnorm)).2
  have h53 : (2 : ℚ) ^ (-53 : Int) ≤ 1 / 128 := by
    have : (2 : ℚ) ^ (-53 : Int) ≤ (2 : ℚ) ^ (-7 : Int) :=
      zpow_le_zpow_right₀ (by norm_num) (by norm_num)
    have h2 : (2 : ℚ) ^ (-7 : Int) = 1 / 128 := by norm_num
    exact this.trans (le_of_eq h2)
  constructor
  · have : (1 : ℚ) / 2 ≤ fmul (fdiv p 100) (n : ℚ) :=
      le_toDouble_of_le _ _ 1 (-1) hx0 (by norm_num) (by norm_num) (by norm_num)
        (by norm_num)
    linarith
  · have hx : fdiv p 100 * (n : ℚ) ≤ 127 / 128 * (n : ℚ) :=
      mul_le_mul_of_nonneg_right ha1 (by linarith)
    have hxpos : 0 ≤ fdiv p 100 * (n : ℚ) := by linarith
    have hmul : fdiv p 100 * (n : ℚ) * (2 : ℚ) ^ (-53 : Int) ≤
        fdiv p 100 * (n : ℚ) * (1 / 128) := mul_le_mul_of_nonneg_left h53 hxpos
    have hstep : toDouble (fdiv p 100 * (n : ℚ)) - fdiv p 100 * (n : ℚ) ≤
        fdiv p 100 * (n : ℚ) * (1 / 128) := hnear.trans hmul
    unfold fmul
    clear hnear hmul h53 hnorm
    linarith

/-- On a non-empty array `getPercentile` is the read of the sorted copy at the
`ceil` of the double product `(p / 100) * n`, less 1. -/
theorem getPercentile_eq (arr : List ℚ) (p : ℚ) (hlen : arr.length ≠ 0) :
    getPercentile arr p =
      arrayAt (sortAscending arr) (⌈fmul (fdiv p 100) (arr.length : ℚ)⌉ - 1) := by
  simp only [getPercentile, hlen, if_false, sortAscending_length]

/-- The double product of 0 and a number is 0. -/
theorem fmul_zero_left (x : ℚ) : fmul 0 x = 0 := by
  simp [fmul, toDouble_zero]

/-- When the double product `(p / 100) * n` is positive and at most `n`, the
read index is in range and the result is the entry of the sorted copy at
`ceil` of the product, less 1. -/
theorem getPercentile_of_bounds (arr : List ℚ) (p : ℚ) (hne : arr ≠ [])
    (hb : 0 < fmul (fdiv p 100) (arr.length : ℚ) ∧
      fmul (fdiv p 100) (arr.length : ℚ) ≤ (arr.length : ℚ)) :
    ∃ k : Nat, (k : Int) = ⌈fmul (fdiv p 100) (arr.length : ℚ)⌉ - 1 ∧
      ∃ hk : k < (sortAscending arr).length,
        getPercentile arr p = some ((sortAscending arr)[k]) := by
  have hn : 0 < arr.length := List.length_pos.mpr hne
  have h1 : 1 ≤ ⌈fmul (fdiv p 100) (arr.length : ℚ)⌉ := by
    have := Int.ceil_pos.mpr hb.1
    omega
  have h2 : ⌈fmul (fdiv p 100) (arr.length : ℚ)⌉ ≤ (arr.length : Int) := by
    rw [Int.ceil_le]
    exact_mod_cast hb.2
  have hlen : arr.length ≠ 0 := by omega
  have hk : (⌈fmul (fdiv p 100) (arr.length : ℚ)⌉ - 1).toNat <
      (sortAscending arr).length := by
    rw [sortAscending_length]; omega
  refine ⟨(⌈fmul (fdiv p 100) (arr.length : ℚ)⌉ - 1).toNat, by omega, hk, ?_⟩
  simp only [getPercentile, hlen, if_false, sortAscending_length, arrayAt]
  rw [if_neg (by omega)]
  exact List.getElem?_eq_getElem hk

/-- In an ascending list an earlier entry is at most a later one. -/
theorem sorted_getElem_le (l : List ℚ) (hs : List.Sorted (· ≤ ·) l) (i j : Nat)
    (hi : i < l.length) (hj : j < l.length) (hij : i ≤ j) : l[i] ≤ l[j] := by
  rcases Nat.eq_or_lt_of_le hij with h | h
  · subst h; exact le_refl _
  · exact (List.pairwise_iff_getElem.mp hs) i j hi hj h

/-- Every entry of a list sits at some index of it. -/
theorem exists_index_of_mem (l : List ℚ) (v : ℚ) (hv : v ∈ l) :
    ∃ i, ∃ hi : i < l.length, l[i] = v := by
  obtain ⟨i, hi, h⟩ := List.getElem_of_mem hv
  exact ⟨i, hi, h⟩

/-- Below `10^21` the value of `toFixed(2)` is a whole number of hundredths
within `1/200` of a non-negative argument. -/
theorem toFixed2_near (x : ℚ) (hx : 0 ≤ x) (hbig : x < (10 : ℚ) ^ 21) :
    (∃ z : Int, toFixed2 x = (z : ℚ) / 100) ∧ |toFixed2 x - x| ≤ 1 / 200 := by
  have hnot : ¬ x < 0 := not_lt.mpr hx
  have hnb : ¬ (10 : ℚ) ^ 21 ≤ x := not_le.mpr hbig
  simp only [toFixed2, if_neg hnot, if_neg hnb]
  refine ⟨⟨_, rfl⟩, ?_⟩
  have h1 : ((⌊x * 100 + 1 / 2⌋ : Int) : ℚ) ≤ x * 100 + 1 / 2 := Int.floor_le _
  have h2 : x * 100 + 1 / 2 < ((⌊x * 100 + 1 / 2⌋ : Int) : ℚ) + 1 := Int.lt_floor_add_one _
  rw [abs_le]
  constructor <;> linarith

/-- The computing part of `printMetrics` never throws: the two percentile reads
are defined whenever they are made. -/
theorem printMetrics_total (now : Int) (m : Metrics) :
    ∃ d, printMetrics now m = some d := by
  by_cases h : m.latencies = []
  · simp [printMetrics, h]
  · have hn : 0 < m.latencies.length := List.length_pos.mpr h
    obtain ⟨k95, -, hk95, e95⟩ := getPercentile_of_bounds m.latencies 95 h
      (product_bounds_high _ 95 hn (by norm_num) (by norm_num))
    obtain ⟨k99, -, hk99, e99⟩ := getPercentile_of_bounds m.latencies 99 h
      (product_bounds_high _ 99 hn (by norm_num) (by norm_num))
    have hpos : m.latencies.length > 0 := hn
    simp [printMetrics, hpos, e95, e99]

/-- The double `28 / 100`. -/
theorem fdiv_28_100 :
    fdiv 28 100 = (5044031582654956 : ℚ) * (2 : ℚ) ^ (-54 : Int) := by
  have := toDouble_eval (28 / 100) (-2) 5044031582654956 (by norm_num) (by norm_num)
    (by norm_num) (by norm_num) (by norm_num)
  simpa [fdiv] using this

/-- The double product of the double `28 / 100` and 25: one unit in the last
place above 7. -/
theorem fmul_28_100_25 :
    fmul ((5044031582654956 : ℚ) * (2 : ℚ) ^ (-54 : Int)) 25 =
      (7881299347898369 : ℚ) * (2 : ℚ) ^ (-50 : Int) := by
  have := toDouble_eval ((5044031582654956 : ℚ) * (2 : ℚ) ^ (-54 : Int) * 25) 2
    7881299347898369 (by norm_num) (by norm_num)
    (by norm_num) (by norm_num) (by norm_num)
  simpa [fmul] using this

/-- The smallest positive double divided by 100 is 0 in doubles. -/
theorem fdiv_tiny_100 : fdiv ((2 : ℚ) ^ (-1074 : Int)) 100 = 0 := by
  unfold fdiv
  apply toDouble_underflow
  · have := two_zpow_pos (-1074 : Int); positivity
  · rw [show (-1075 : Int) = -1 + -1074 by norm_num, zpow_add₀ (by norm_num : (2 : ℚ) ≠ 0)]
    have := two_zpow_pos (-1074 : Int)
    rw [div_lt_iff₀ (by norm_num)]
    have h2 : (2 : ℚ) ^ (-1 : Int) = 1 / 2 := by norm_num
    rw [h2]
    linarith

/-- The samples `1 .. 25` are their own sorted copy. -/
theorem sortAscending_oneToTwentyFive : sortAscending oneToTwentyFive = oneToTwentyFive := by
  apply List.Sorted.insertionSort_eq
  unfold oneToTwentyFive
  norm_num [List.Sorted]

/-- C1 (as stated, refuted): for the samples `1 .. 25` and `p = 28` the exact
index `ceil(28/100 * 25) - 1` is 6, where the sorted array holds 7, but the
double product is above 7 and `getPercentile` returns 8, the entry at index 7;
and for the smallest positive double as `p` the quotient underflows to 0, the
index is -1 and the result is `undefined`. -/
theorem getPercentile_rank_counterexample :
    (oneToTwentyFive ≠ [] ∧ (0 : ℚ) < 28 ∧ (28 : ℚ) ≤ 100 ∧
      ⌈((28 : ℚ) / 100) * (oneToTwentyFive.length : ℚ)⌉ - 1 = 6 ∧
      (sortAscending oneToTwentyFive)[6]? = some 7 ∧
      getPercentile oneToTwentyFive 28 = some 8) ∧
    ((0 : ℚ) < (2 : ℚ) ^ (-1074 : Int) ∧ (2 : ℚ) ^ (-1074 : Int) ≤ 100 ∧
      getPercentile [30, 10, 20] ((2 : ℚ) ^ (-1074 : Int)) = none) := by
  refine ⟨⟨by simp [oneToTwentyFive], by norm_num, by norm_num, ?_, ?_, ?_⟩,
    two_zpow_pos _, ?_, ?_⟩
  · have : ⌈((28 : ℚ) / 100) * ((oneToTwentyFive.length : Nat) : ℚ)⌉ = 7 := by
      apply ceil_of_bounds <;> norm_num [oneToTwentyFive]
    rw [this]; norm_num
  · rw [sortAscending_oneToTwentyFive]; rfl
  · have hc : ⌈(7881299347898369 : ℚ) * (2 : ℚ) ^ (-50 : Int)⌉ = 8 := by
      apply ceil_of_bounds <;> norm_num
    have hl : oneToTwentyFive.length = 25 := rfl
    have h25 : ((25 : Nat) : ℚ) = 25 := by norm_num
    rw [getPercentile_eq _ _ (by rw [hl]; decide), sortAscending_oneToTwentyFive, hl, h25,
      fdiv_28_100, fmul_28_100_25, hc]
    rfl
  · have : (2 : ℚ) ^ (-1074 : Int) ≤ (2 : ℚ) ^ (0 : Int) :=
      zpow_le_zpow_right₀ (by norm_num) (by norm_num)
    simp only [zpow_zero] at this
    linarith
  · rw [getPercentile_eq _ _ (by decide), fdiv_tiny_100, fmul_zero_left]
    simp [arrayAt]

/-- C1 (amended): for a non-empty array of `n < 2^53` entries and `p ≤ 100`
with `p / 100` at least the smallest positive double, `getPercentile` returns
the element at 0-based index `ceil(F) - 1` of the array sorted ascending (a
sorted permutation of the input), `F` being `(p / 100) * n` as computed in
doubles; that index lies in `0 .. n-1`, so the result is a defined element of
the array. -/
theorem getPercentile_nearest_rank (arr : List ℚ) (p : ℚ)
    (hne : arr ≠ []) (hlen : arr.length < 2 ^ 53)
    (hp0 : (2 : ℚ) ^ (-1074 : Int) ≤ p / 100) (hp : p ≤ 100) :
    ∃ sorted : List ℚ, sorted.Perm arr ∧ List.Sorted (· ≤ ·) sorted ∧
      ∃ k : Nat, (k : Int) = ⌈fmul (fdiv p 100) (arr.length : ℚ)⌉ - 1 ∧
        k < arr.length ∧ getPercentile arr p = sorted[k]? ∧
        ∃ v, v ∈ arr ∧ getPercentile arr p = some v := by
  obtain ⟨k, hk, hlt, e⟩ := getPercentile_of_bounds arr p hne
    (product_bounds arr.length p (List.length_pos.mpr hne) hlen hp0 hp)
  refine ⟨sortAscending arr, sortAscending_perm arr, sortAscending_sorted arr, k, hk,
    ?_, ?_, (sortAscending arr)[k], ?_, e⟩
  · rw [← sortAscending_length arr]; exact hlt
  · rw [e]; exact (List.getElem?_eq_getElem hlt).symm
  · exact (sortAscending_perm arr).subset (List.getElem_mem hlt)

/-- Witness of the amended C1 at the samples `[30, 10, 20]` and `p = 95`. -/
theorem getPercentile_nearest_rank_witness :
    (([30, 10, 20] : List ℚ) ≠ [] ∧ ([30, 10, 20] : List ℚ).length < 2 ^ 53 ∧
      (2 : ℚ) ^ (-1074 : Int) ≤ (95 : ℚ) / 100 ∧ (95 : ℚ) ≤ 100) ∧
    ∃ sorted : List ℚ, sorted.Perm [30, 10, 20] ∧ List.Sorted (· ≤ ·) sorted ∧
      ∃ k : Nat, (k : Int) =
          ⌈fmul (fdiv 95 100) (([30, 10, 20] : List ℚ).length : ℚ)⌉ - 1 ∧
        k < ([30, 10, 20] : List ℚ).length ∧ getPercentile [30, 10, 20] 95 = sorted[k]? ∧
        ∃ v, v ∈ ([30, 10, 20] : List ℚ) ∧ getPercentile [30, 10, 20] 95 = some v :=
  have h0 : (2 : ℚ) ^ (-1074 : Int) ≤ (95 : ℚ) / 100 := by
    have : (2 : ℚ) ^ (-1074 : Int) ≤ (2 : ℚ) ^ (-1 : Int) :=
      zpow_le_zpow_right₀ (by norm_num) (by norm_num)
    have h2 : (2 : ℚ) ^ (-1 : Int) = 1 / 2 := by norm_num
    rw [h2] at this
    linarith
  ⟨⟨by simp, by norm_num, h0, by norm_num⟩,
    getPercentile_nearest_rank [30, 10, 20] 95 (by simp) (by norm_num) h0 (by norm_num)⟩

/-- C3 (as stated, refuted): at `p = 0` the read index is `-1`, so
`getPercentile([30, 10, 20], 0)` is `undefined`, not the minimum `10`. -/
theorem getPercentile_zero_counterexample :
    getPercentile [30, 10, 20] 0 = none ∧
    ¬ ∃ m, m ∈ ([30, 10, 20] : List ℚ) ∧ getPercentile [30, 10, 20] 0 = some m := by
  have h : getPercentile [30, 10, 20] 0 = none := by
    have h0 : fdiv 0 100 = 0 := by simp [fdiv, toDouble_zero]
    rw [getPercentile_eq _ _ (by decide), h0, fmul_zero_left]
    simp [arrayAt]
  refine ⟨h, ?_⟩
  rintro ⟨m, -, hm⟩
  rw [h] at hm
  exact Option.noConfusion hm

/-- C3 (amended): for a non-empty sample sequence (of fewer than `2^53`
samples), `getPercentile(S, 100)` is the maximum of `S`, and
`getPercentile(S, 0)` is `undefined`, not the minimum. -/
theorem getPercentile_extremes (S : List ℚ) (hne : S ≠ []) (hlen : S.length < 2 ^ 53) :
    (∃ m, m ∈ S ∧ (∀ v ∈ S, v ≤ m) ∧ getPercentile S 100 = some m) ∧
    getPercentile S 0 = none := by
  have hn : 0 < S.length := List.length_pos.mpr hne
  have hnq : (0 : ℚ) < (S.length : ℚ) := by exact_mod_cast hn
  have hlen0 : S.length ≠ 0 := by omega
  have hF : fmul (fdiv 100 100) (S.length : ℚ) = (S.length : ℚ) := by
    have h1 : fdiv 100 100 = 1 := by
      unfold fdiv
      rw [div_self (by norm_num)]
      simpa using toDouble_natCast 1 (by norm_num)
    rw [h1]
    unfold fmul
    rw [one_mul]
    exact toDouble_natCast _ hlen
  refine ⟨?_, ?_⟩
  · obtain ⟨k, hk, hlt, e⟩ := getPercentile_of_bounds S 100 hne (by rw [hF]; exact ⟨hnq, le_rfl⟩)
    have hk' : k + 1 = S.length := by
      rw [hF, Int.ceil_natCast] at hk
      omega
    refine ⟨(sortAscending S)[k], (sortAscending_perm S).subset (List.getElem_mem hlt), ?_, e⟩
    intro v hv
    have hv' : v ∈ sortAscending S := (sortAscending_perm S).symm.subset hv
    obtain ⟨i, hi, rfl⟩ := exists_index_of_mem _ v hv'
    apply sorted_getElem_le _ (sortAscending_sorted S) i k hi hlt
    rw [sortAscending_length] at hi
    omega
  · have h0 : fdiv 0 100 = 0 := by simp [fdiv, toDouble_zero]
    rw [getPercentile_eq _ _ hlen0, h0, fmul_zero_left]
    simp [arrayAt]

/-- Witness of the amended C3 at the samples `[30, 10, 20]`. -/
theorem getPercentile_extremes_witness :
    (([30, 10, 20] : List ℚ) ≠ [] ∧ ([30, 10, 20] : List ℚ).length < 2 ^ 53) ∧
    ((∃ m, m ∈ ([30, 10, 20] : List ℚ) ∧ (∀ v ∈ ([30, 10, 20] : List ℚ), v ≤ m) ∧
        getPercentile [30, 10, 20] 100 = some m) ∧
    getPercentile [30, 10, 20] 0 = none) :=
  ⟨⟨by simp, by norm_num⟩, getPercentile_extremes [30, 10, 20] (by simp) (by norm_num)⟩

/-- C4: on empty input everything is 0 and nothing fails: `getPercentile([], p)`
is 0 for every `p`; `printMetrics` always yields its values, with mean latency,
p95 and p99 equal to 0 when `latencies` is empty and mean connection time equal
to 0 when `connectionTimes` is empty. -/
theorem empty_input_is_zero :
    (∀ p : ℚ, getPercentile [] p = some 0) ∧
    (∀ (now : Int) (m : Metrics), ∃ d, printMetrics now m = some d ∧
      (m.latencies = [] → d.avgLatency = 0 ∧ d.p95Latency = 0 ∧ d.p99Latency = 0) ∧
      (m.connectionTimes = [] → d.avgConnectionTime = 0)) := by
  refine ⟨fun p => by simp [getPercentile], ?_⟩
  intro now m
  obtain ⟨d, hd⟩ := printMetrics_total now m
  refine ⟨d, hd, ?_, ?_⟩
  · intro h
    simp [printMetrics, h] at hd
    subst hd
    simp
  · intro h
    by_cases hl : m.latencies = []
    · simp [printMetrics, h, hl] at hd
      subst hd
      simp
    · have hn : 0 < m.latencies.length := List.length_pos.mpr hl
      obtain ⟨k95, -, hk95, e95⟩ := getPercentile_of_bounds m.latencies 95 hl
        (product_bounds_high _ 95 hn (by norm_num) (by norm_num))
      obtain ⟨k99, -, hk99, e99⟩ := getPercentile_of_bounds m.latencies 99 hl
        (product_bounds_high _ 99 hn (by norm_num) (by norm_num))
      have hpos : m.latencies.length > 0 := hn
      simp [printMetrics, h, hpos, e95, e99] at hd
      subst hd
      simp

/-- Witness of C4 on the freshly constructed metrics, read at time 5. -/
theorem empty_input_is_zero_witness :
    ∃ d, printMetrics 5 {} = some d ∧
      (({} : Metrics).latencies = [] → d.avgLatency = 0 ∧ d.p95Latency = 0 ∧ d.p99Latency = 0) ∧
      (({} : Metrics).connectionTimes = [] → d.avgConnectionTime = 0) :=
  empty_input_is_zero.2 5 {}

/-- What `printMetrics` yields for the elapsed time and the message rate. -/
theorem printMetrics_rate (now : Int) (m : Metrics) (d : Derived)
    (hd : printMetrics now m = some d) :
    d.elapsedSeconds = fdiv ((now - m.startTime : Int) : ℚ) 1000 ∧
    d.messagesPerSec =
      if fdiv ((now - m.startTime : Int) : ℚ) 1000 > 0 then
        toFixed2 (fdiv (m.messagesSent : ℚ) (fdiv ((now - m.startTime : Int) : ℚ) 1000))
      else 0 := by
  simp only [printMetrics, Option.bind_eq_some] at hd
  obtain ⟨p95, -, p99, -, h⟩ := hd
  cases h
  exact ⟨rfl, rfl⟩

/-- The value of `toFixed(2)` on a non-negative double below `10^21`, from the
two bounds around its hundredths. -/
theorem toFixed2_eval (x : ℚ) (z : Int) (hx : 0 ≤ x) (h1 : (z : ℚ) ≤ x * 100 + 1 / 2)
    (h2 : x * 100 + 1 / 2 < (z : ℚ) + 1) (hbig : x < (10 : ℚ) ^ 21) :
    toFixed2 x = (z : ℚ) / 100 := by
  simp only [toFixed2, if_neg (not_lt.mpr hx), if_neg (not_le.mpr hbig),
    floor_of_bounds _ z h1 h2]

/-- The double quotient `1 / 3` lies between `341/1024` and `342/1024`. -/
theorem fdiv_1_3_bounds : (341 : ℚ) / 1024 ≤ fdiv 1 3 ∧ fdiv 1 3 ≤ 342 / 1024 := by
  constructor
  · exact le_toDouble_of_le (1 / 3) _ 341 (-10) (by norm_num) (by norm_num) (by norm_num)
      (by norm_num) (by norm_num)
  · exact toDouble_le_of_le (1 / 3) _ 342 (-10) (by norm_num) (by norm_num) (by norm_num)
      (by norm_num) (by norm_num)

/-- The double quotient `3 / 40`, just below `0.075`. -/
theorem fdiv_3_40 :
    fdiv 3 40 = (5404319552844595 : ℚ) * (2 : ℚ) ^ (-56 : Int) := by
  have := toDouble_eval (3 / 40) (-4) 5404319552844595 (by norm_num) (by norm_num)
    (by norm_num) (by norm_num) (by norm_num)
  simpa [fdiv] using this

/-- A whole number of seconds below `2^53`, given in milliseconds, is its own
double quotient by 1000. -/
theorem fdiv_seconds (s : Nat) (hs : s < 2 ^ 53) :
    fdiv (((1000 * s : Nat) : Int) : ℚ) 1000 = (s : ℚ) := by
  unfold fdiv
  have : (((1000 * s : Nat) : Int) : ℚ) / 1000 = (s : ℚ) := by
    push_cast; field_simp
  rw [this]
  exact toDouble_natCast s hs

/-- C10 (as stated, refuted): with one message sent and 3000 ms elapsed the rate
is `0.33` (what `toFixed(2)` spells), not `1/3 = messagesSent / elapsedSeconds`. -/
theorem messagesPerSec_counterexample :
    ∃ d, printMetrics 3000 { messagesSent := 1 } = some d ∧
      d.elapsedSeconds = 3 ∧
      d.messagesPerSec = 33 / 100 ∧
      d.messagesPerSec ≠ ((1 : Nat) : ℚ) / (((3000 - 0 : Int) : ℚ) / 1000) := by
  obtain ⟨d, hd⟩ := printMetrics_total 3000 { messagesSent := 1 }
  obtain ⟨he, h⟩ := printMetrics_rate _ _ _ hd
  have hes : fdiv (((3000 : Int) - (0 : Int) : Int) : ℚ) 1000 = 3 := by
    have := fdiv_seconds 3 (by norm_num)
    simpa using this
  have hv : d.messagesPerSec = 33 / 100 := by
    rw [h]
    simp only [hes]
    rw [if_pos (by norm_num)]
    obtain ⟨hlo, hhi⟩ := fdiv_1_3_bounds
    have := toFixed2_eval (fdiv 1 3) 33 (by linarith) (by push_cast; linarith)
      (by push_cast; linarith) (by linarith [show (1 : ℚ) ≤ 10 ^ 21 by norm_num])
    simpa using this
  refine ⟨d, hd, ?_, hv, ?_⟩
  · rw [he]; exact hes
  · rw [hv]
    norm_num

/-- Three messages in 40 seconds: the double quotient is just below `0.075` and
`toFixed(2)` spells `0.07`. -/
theorem messagesPerSec_three_in_forty :
    ∃ d, printMetrics 40000 { messagesSent := 3 } = some d ∧
      d.messagesPerSec = 7 / 100 := by
  obtain ⟨d, hd⟩ := printMetrics_total 40000 { messagesSent := 3 }
  obtain ⟨-, h⟩ := printMetrics_rate _ _ _ hd
  have hes : fdiv (((40000 : Int) - (0 : Int) : Int) : ℚ) 1000 = 40 := by
    have := fdiv_seconds 40 (by norm_num)
    simpa using this
  refine ⟨d, hd, ?_⟩
  rw [h]
  simp only [hes]
  rw [if_pos (by norm_num)]
  have hq : fdiv ((3 : Nat) : ℚ) 40 = (5404319552844595 : ℚ) * (2 : ℚ) ^ (-56 : Int) := by
    simpa using fdiv_3_40
  rw [hq]
  have := toFixed2_eval ((5404319552844595 : ℚ) * (2 : ℚ) ^ (-56 : Int)) 7 (by norm_num)
    (by norm_num) (by norm_num) (by norm_num)
  simpa using this

/-- C10 (amended): the message rate of `printMetrics` is what `toFixed(2)`
spells for the double quotient `messagesSent / elapsedSeconds`, with
`elapsedSeconds` the double `(now - startTime) / 1000`, whenever
`now > startTime`: below `10^21` a whole number of hundredths within `1/200` of
that quotient; it is 0 when `now ≤ startTime`, so no division by zero happens. -/
theorem messagesPerSec_rounded (now : Int) (m : Metrics) :
    ∃ d, printMetrics now m = some d ∧
      d.elapsedSeconds = fdiv ((now - m.startTime : Int) : ℚ) 1000 ∧
      (m.startTime < now →
        0 < d.elapsedSeconds ∧
        d.messagesPerSec = toFixed2 (fdiv (m.messagesSent : ℚ) d.elapsedSeconds) ∧
        (fdiv (m.messagesSent : ℚ) d.elapsedSeconds < (10 : ℚ) ^ 21 →
          (∃ z : Int, d.messagesPerSec = (z : ℚ) / 100) ∧
          |d.messagesPerSec - fdiv (m.messagesSent : ℚ) d.elapsedSeconds| ≤ 1 / 200)) ∧
      (now ≤ m.startTime → d.messagesPerSec = 0) := by
  obtain ⟨d, hd⟩ := printMetrics_total now m
  obtain ⟨he, hr⟩ := printMetrics_rate _ _ _ hd
  refine ⟨d, hd, he, ?_, ?_⟩
  · intro hlt
    have hpos : fdiv ((now - m.startTime : Int) : ℚ) 1000 > 0 := by
      have h1 : (1 : ℚ) ≤ ((now - m.startTime : Int) : ℚ) := by
        have : (1 : Int) ≤ now - m.startTime := by omega
        exact_mod_cast this
      have h2 : (1 : ℚ) / 1024 ≤ ((now - m.startTime : Int) : ℚ) / 1000 := by
        rw [le_div_iff₀ (by norm_num)]; linarith
      have := le_toDouble_of_le (((now - m.startTime : Int) : ℚ) / 1000) _ 1 (-10) h2
        (by norm_num) (by norm_num) (by norm_num) (by norm_num)
      unfold fdiv
      linarith
    rw [if_pos hpos] at hr
    rw [he, hr]
    have hq : (0 : ℚ) ≤
        fdiv (m.messagesSent : ℚ) (fdiv ((now - m.startTime : Int) : ℚ) 1000) :=
      toDouble_nonneg _ (div_nonneg (Nat.cast_nonneg _) hpos.le)
    exact ⟨hpos, rfl, fun hbig => toFixed2_near _ hq hbig⟩
  · intro hle
    have hnpos : ¬ fdiv ((now - m.startTime : Int) : ℚ) 1000 > 0 := by
      have : ((now - m.startTime : Int) : ℚ) ≤ 0 := by
        exact_mod_cast sub_nonpos.mpr hle
      have : ((now - m.startTime : Int) : ℚ) / 1000 ≤ 0 :=
        div_nonpos_of_nonpos_of_nonneg this (by norm_num)
      exact not_lt.mpr (toDouble_nonpos _ this)
    rw [if_neg hnpos] at hr
    exact hr

/-- Witness of the amended C10: one message sent, 3000 ms elapsed. -/
theorem messagesPerSec_rounded_witness :
    ∃ d, printMetrics 3000 { messagesSent := 1 } = some d ∧
      d.elapsedSeconds =
        fdiv ((3000 - ({ messagesSent := 1 } : Metrics).startTime : Int) : ℚ) 1000 ∧
      (({ messagesSent := 1 } : Metrics).startTime < 3000 →
        0 < d.elapsedSeconds ∧
        d.messagesPerSec =
          toFixed2 (fdiv (({ messagesSent := 1 } : Metrics).messagesSent : ℚ)
            d.elapsedSeconds) ∧
        (fdiv (({ messagesSent := 1 } : Metrics).messagesSent : ℚ) d.elapsedSeconds <
            (10 : ℚ) ^ 21 →
          (∃ z : Int, d.messagesPerSec = (z : ℚ) / 100) ∧
          |d.messagesPerSec -
              fdiv (({ messagesSent := 1 } : Metrics).messagesSent : ℚ) d.elapsedSeconds|
            ≤ 1 / 200)) ∧
      (3000 ≤ ({ messagesSent := 1 } : Metrics).startTime → d.messagesPerSec = 0) :=
  messagesPerSec_rounded 3000 { messagesSent := 1 }

/-- With a positive batch size the batch count is the finite ceiling, which
covers all users while each of its batches starts below the user count. -/
theorem totalBatches_spec (N B : Nat) (hB : 1 ≤ B) :
    totalBatches N B = .finite ⌈(N : ℚ) / (B : ℚ)⌉₊ ∧
    N ≤ ⌈(N : ℚ) / (B : ℚ)⌉₊ * B ∧
    ∀ k, k < ⌈(N : ℚ) / (B : ℚ)⌉₊ → k * B < N := by
  have hB0 : B ≠ 0 := by omega
  have hBq : (0 : ℚ) < (B : ℚ) := by exact_mod_cast hB
  refine ⟨by simp [totalBatches, hB0], ?_, ?_⟩
  · have h : (N : ℚ) / (B : ℚ) ≤ (⌈(N : ℚ) / (B : ℚ)⌉₊ : ℚ) := Nat.le_ceil _
    rw [div_le_iff₀ hBq] at h
    exact_mod_cast h
  · intro k hk
    have h : (k : ℚ) < (N : ℚ) / (B : ℚ) := Nat.lt_ceil.mp hk
    rw [lt_div_iff₀ hBq] at h
    exact_mod_cast h

/-- The users launched by the first `n` batches are `0 .. min (n * B) N - 1`, in
ascending order. -/
theorem flatMap_batchUsers (N B n : Nat) :
    (List.range n).flatMap
      (fun batch => batchUsers (batch * B) (min (batch * B + B) N)) =
    List.range (min (n * B) N) := by
  induction n with
  | zero => simp
  | succ n ih =>
    rw [List.range_succ, List.flatMap_append, ih, List.flatMap_singleton, batchUsers]
    rcases Nat.lt_or_ge N (n * B) with h | h
    · have h1 : min (n * B) N = N := by omega
      have h2 : min (n * B + B) N - n * B = 0 := by omega
      have h3 : min ((n + 1) * B) N = N := by
        have : (n + 1) * B = n * B + B := by ring
        omega
      rw [h1, h2, h3]
      simp
    · have h1 : min (n * B) N = n * B := by omega
      have h3 : min ((n + 1) * B) N = n * B + (min (n * B + B) N - n * B) := by
        have : (n + 1) * B = n * B + B := by ring
        omega
      rw [h1, h3, List.range_eq_range', List.range_eq_range']
      have := List.range'_append 0 (n * B) (min (n * B + B) N - n * B) 1
      simp only [Nat.zero_add, Nat.one_mul] at this
      rw [this]
      congr 1
      omega

/-- The users launched by a plan do not depend on its sleeping flags. -/
theorem launched_eq (N B n : Nat) : launched N B n = List.range (min (n * B) N) := by
  rw [← flatMap_batchUsers]
  simp [launched, batchPlan, List.flatMap_def, List.map_map, Function.comp_def]

/-! ### Frame facts: what the small steps leave alone -/

@[simp] theorem log_metrics (env : Env) (l m : String) (a : List String) (t : Tester) :
    (t.log env l m a).metrics = t.metrics := rfl

@[simp] theorem log_trace (env : Env) (l m : String) (a : List String) (t : Tester) :
    (t.log env l m a).trace = t.trace := rfl

@[simp] theorem log_sockets (env : Env) (l m : String) (a : List String) (t : Tester) :
    (t.log env l m a).sockets = t.sockets := rfl

@[simp] theorem log_config (env : Env) (l m : String) (a : List String) (t : Tester) :
    (t.log env l m a).config = t.config := rfl

@[simp] theorem act_metrics (a : Action) (t : Tester) : (t.act a).metrics = t.metrics := rfl

@[simp] theorem act_trace (a : Action) (t : Tester) : (t.act a).trace = t.trace ++ [a] := rfl

@[simp] theorem act_sockets (a : Action) (t : Tester) : (t.act a).sockets = t.sockets := rfl

@[simp] theorem act_config (a : Action) (t : Tester) : (t.act a).config = t.config := rfl

@[simp] theorem sleep_metrics (ms : ℚ) (t : Tester) : (t.sleep ms).metrics = t.metrics := rfl

@[simp] theorem sleep_trace (ms : ℚ) (t : Tester) :
    (t.sleep ms).trace = t.trace ++ [.sleep ms] := rfl

@[simp] theorem sleep_config (ms : ℚ) (t : Tester) : (t.sleep ms).config = t.config := rfl

@[simp] theorem tick_metrics (t : Tester) : t.tick.metrics = t.metrics := rfl

@[simp] theorem tick_trace (t : Tester) : t.tick.trace = t.trace := rfl

@[simp] theorem tick_sockets (t : Tester) : t.tick.sockets = t.sockets := rfl

@[simp] theorem tick_config (t : Tester) : t.tick.config = t.config := rfl

@[simp] theorem log_promises (env : Env) (l m : String) (a : List String) (t : Tester) :
    (t.log env l m a).promises = t.promises := rfl

@[simp] theorem act_promises (a : Action) (t : Tester) : (t.act a).promises = t.promises := rfl

@[simp] theorem sleep_promises (ms : ℚ) (t : Tester) : (t.sleep ms).promises = t.promises := rfl

@[simp] theorem tick_promises (t : Tester) : t.tick.promises = t.promises := rfl

/-- A successful `createTestUser` counts one user and does nothing else to the
counters, the sockets or the channel. -/
theorem createTestUser_some (env : Env) (userId : UserId) (t : Tester) (a : AuthBody)
    (h : (createTestUser env userId t).1 = some a) :
    (createTestUser env userId t).2.metrics =
      { t.metrics with usersCreated := t.metrics.usersCreated + 1 } ∧
    (createTestUser env userId t).2.trace = t.trace ∧
    (createTestUser env userId t).2.sockets = t.sockets ∧
    (createTestUser env userId t).2.config = t.config := by
  unfold createTestUser at h ⊢
  cases hl : env.login userId with
  | ok authData => simp [Tester.incUsersCreated]
  | error loginError =>
    simp only [hl] at h ⊢
    split_ifs at h ⊢ with hs
    · cases hr : env.register userId with
      | ok authData => simp [Tester.incUsersCreated]
      | error e => simp [hr, createTestUserFailed] at h
    · simp [createTestUserFailed] at h

/-- What `simulateUser` does once the payload is known to be an object lacking
a credential. -/
theorem simulateUser_after_auth (env : Env) (userId : UserId) (roomId : Option String)
    (t t1 : Tester) (authData : AuthData)
    (hc : createTestUser env userId t.tick = (some (.object authData), t1))
    (hfalsy : (!truthy (jsOr authData.token (authData.data.bind (·.token))) ||
      !truthy (jsOr authData.sessionId (authData.data.bind (·.sessionId)))) = true) :
    simulateUser env userId roomId t =
      (none, (t1.incErrorsAuth).log env "error"
        ("User " ++ userId.text ++ " missing token/sessionId: token=" ++
          showText (jsOr authData.token (authData.data.bind (·.token))) ++
          ", sessionId=" ++
          showText (jsOr authData.sessionId (authData.data.bind (·.sessionId)))) []) := by
  simp only [simulateUser, hc]
  rw [if_pos hfalsy]

/-- C5 (as stated, refuted): a login that answers 200 with an empty body is a
successful authentication whose payload yields no session identifier, yet
`simulateUser` leaves at `if (!authData) return;`: the user is counted and
`errorsAuth` stays 0. -/
theorem simulateUser_empty_body_counterexample :
    (createTestUser emptyBodyEnv (.index 0) (Tester.new emptyBodyEnv sampleConfig).tick).1 =
      some .empty ∧
    (simulateUser emptyBodyEnv (.index 0) (some "r1")
      (Tester.new emptyBodyEnv sampleConfig)).1 = none ∧
    (simulateUser emptyBodyEnv (.index 0) (some "r1")
      (Tester.new emptyBodyEnv sampleConfig)).2.metrics.usersCreated = 1 ∧
    (Tester.new emptyBodyEnv sampleConfig).metrics.errorsAuth = 0 ∧
    (simulateUser emptyBodyEnv (.index 0) (some "r1")
      (Tester.new emptyBodyEnv sampleConfig)).2.metrics.errorsAuth = 0 :=
  ⟨rfl, rfl, rfl, rfl, rfl⟩

/-- C5 (amended): when authentication succeeds with a credential object that has
no session identifier (or no token), neither directly nor under `data`,
`simulateUser` returns without a session: `errorsAuth` grows by exactly 1, `io`
is not called and no socket is stored (the effect trace and `sockets` are
unchanged, so no handler is registered either), and after the authentication
step no other counter moves. -/
theorem simulateUser_missing_credentials (env : Env) (userId : UserId)
    (roomId : Option String) (t : Tester) (authData : AuthData)
    (hauth : (createTestUser env userId t.tick).1 = some (.object authData))
    (hmiss : (authData.sessionId = none ∧ authData.data.bind (·.sessionId) = none) ∨
      (authData.token = none ∧ authData.data.bind (·.token) = none)) :
    (simulateUser env userId roomId t).1 = none ∧
    (simulateUser env userId roomId t).2.metrics =
      { (createTestUser env userId t.tick).2.metrics with
        errorsAuth := (createTestUser env userId t.tick).2.metrics.errorsAuth + 1 } ∧
    (simulateUser env userId roomId t).2.metrics.errorsAuth = t.metrics.errorsAuth + 1 ∧
    (simulateUser env userId roomId t).2.trace = t.trace ∧
    (simulateUser env userId roomId t).2.sockets = t.sockets := by
  obtain ⟨hm, ht, hs, -⟩ := createTestUser_some env userId t.tick _ hauth
  have hfalsy : (!truthy (jsOr authData.token (authData.data.bind (·.token))) ||
      !truthy (jsOr authData.sessionId (authData.data.bind (·.sessionId)))) = true := by
    rcases hmiss with ⟨h1, h2⟩ | ⟨h1, h2⟩
    · simp [h1, h2, jsOr, truthy]
    · simp [h1, h2, jsOr, truthy]
  have hc : createTestUser env userId t.tick =
      (some (.object authData), (createTestUser env userId t.tick).2) := Prod.ext hauth rfl
  rw [simulateUser_after_auth env userId roomId t _ authData hc hfalsy]
  refine ⟨rfl, rfl, ?_, ?_, ?_⟩
  · simp [Tester.incErrorsAuth, hm]
  · simpa [Tester.incErrorsAuth] using ht
  · simpa [Tester.incErrorsAuth] using hs

/-- Witness of the amended C5: the login answers with an object holding a token
but no session identifier. -/
theorem simulateUser_missing_credentials_witness :
    ((createTestUser (sampleEnv tokenOnlyAuth []) (.index 0)
        (Tester.new (sampleEnv tokenOnlyAuth []) sampleConfig).tick).1 =
        some (.object tokenOnlyAuth) ∧
      ((tokenOnlyAuth.sessionId = none ∧ tokenOnlyAuth.data.bind (·.sessionId) = none) ∨
        (tokenOnlyAuth.token = none ∧ tokenOnlyAuth.data.bind (·.token) = none))) ∧
    (simulateUser (sampleEnv tokenOnlyAuth []) (.index 0) (some "r1")
        (Tester.new (sampleEnv tokenOnlyAuth []) sampleConfig)).2.metrics.errorsAuth =
      (Tester.new (sampleEnv tokenOnlyAuth []) sampleConfig).metrics.errorsAuth + 1 ∧
    (simulateUser (sampleEnv tokenOnlyAuth []) (.index 0) (some "r1")
        (Tester.new (sampleEnv tokenOnlyAuth []) sampleConfig)).2.trace =
      (Tester.new (sampleEnv tokenOnlyAuth []) sampleConfig).trace :=
  ⟨⟨rfl, Or.inl ⟨rfl, rfl⟩⟩,
    (simulateUser_missing_credentials (sampleEnv tokenOnlyAuth []) (.index 0) (some "r1")
      (Tester.new (sampleEnv tokenOnlyAuth []) sampleConfig) tokenOnlyAuth rfl
      (Or.inl ⟨rfl, rfl⟩)).2.2.1,
    (simulateUser_missing_credentials (sampleEnv tokenOnlyAuth []) (.index 0) (some "r1")
      (Tester.new (sampleEnv tokenOnlyAuth []) sampleConfig) tokenOnlyAuth rfl
      (Or.inl ⟨rfl, rfl⟩)).2.2.2.1⟩

/-- One pass of the send loop whose emit does not throw: one more message sent,
one more latency sample, a think time and an emit, nothing else. -/
theorem sendMessage_ok (env : Env) (socket : Socket) (userId : UserId)
    (roomId : Option String) (messageCount i : Nat) (t : Tester)
    (h : env.emitFails userId i = none) :
    ∃ (sample : ℚ) (p : ℚ × String),
      (sendMessage env socket userId roomId messageCount i t).metrics =
        { t.metrics with
          messagesSent := t.metrics.messagesSent + 1
          latencies := t.metrics.latencies ++ [sample] } ∧
      (sendMessage env socket userId roomId messageCount i t).trace =
        t.trace ++ sendEffects socket roomId p ∧
      (sendMessage env socket userId roomId messageCount i t).config = t.config ∧
      (sendMessage env socket userId roomId messageCount i t).sockets = t.sockets ∧
      (sendMessage env socket userId roomId messageCount i t).logBuffer = t.logBuffer := by
  refine ⟨((env.clock (t.clockReads + 1 + 1) - env.clock t.clockReads : Int) : ℚ),
    (fadd (fmul (env.random t.randomReads) (3000 - 1000)) 1000,
      "Load test message " ++ toString (i + 1) ++ "/" ++ toString messageCount ++
        " from user " ++ userId.text ++ " at " ++
        env.toISOString (env.clock (t.clockReads + 1))), ?_, ?_, ?_, ?_, ?_⟩ <;>
  simp [sendMessage, h, sendEffects, Tester.sleep, Tester.act, Tester.tick]

/-- The send loop over indices whose emits do not throw. -/
theorem sendLoop_ok (env : Env) (socket : Socket) (userId : UserId)
    (roomId : Option String) (messageCount : Nat) (l : List Nat)
    (h : ∀ i ∈ l, env.emitFails userId i = none) (t : Tester) :
    ∃ (samples : List ℚ) (sends : List (ℚ × String)),
      samples.length = l.length ∧ sends.length = l.length ∧
      (l.foldl (fun t i => sendMessage env socket userId roomId messageCount i t) t).metrics =
        { t.metrics with
          messagesSent := t.metrics.messagesSent + l.length
          latencies := t.metrics.latencies ++ samples } ∧
      (l.foldl (fun t i => sendMessage env socket userId roomId messageCount i t) t).trace =
        t.trace ++ sends.flatMap (sendEffects socket roomId) ∧
      (l.foldl (fun t i => sendMessage env socket userId roomId messageCount i t) t).config =
        t.config ∧
      (l.foldl (fun t i => sendMessage env socket userId roomId messageCount i t) t).sockets =
        t.sockets ∧
      (l.foldl (fun t i => sendMessage env socket userId roomId messageCount i t) t).logBuffer =
        t.logBuffer := by
  induction l generalizing t with
  | nil => exact ⟨[], [], rfl, rfl, by simp, by simp, rfl, rfl, rfl⟩
  | cons i l ih =>
    obtain ⟨sample, p, hm, ht, hc, hs, hl⟩ :=
      sendMessage_ok env socket userId roomId messageCount i t (h i (List.mem_cons_self _ _))
    obtain ⟨samples, sends, hn1, hn2, hm', ht', hc', hs', hl'⟩ :=
      ih (fun j hj => h j (List.mem_cons_of_mem _ hj))
        (sendMessage env socket userId roomId messageCount i t)
    refine ⟨sample :: samples, p :: sends, by simp [hn1], by simp [hn2], ?_, ?_, ?_, ?_, ?_⟩
    · rw [List.foldl_cons, hm', hm]
      simp [Nat.add_assoc, Nat.add_comm 1]
    · rw [List.foldl_cons, ht', ht]
      simp
    · rw [List.foldl_cons, hc', hc]
    · rw [List.foldl_cons, hs', hs]
    · rw [List.foldl_cons, hl', hl]

/-- No pass of the send loop closes the socket. -/
theorem close_not_mem_sends (socket : Socket) (roomId : Option String)
    (sends : List (ℚ × String)) :
    Action.close socket ∉ sends.flatMap (sendEffects socket roomId) := by
  intro h
  rw [List.mem_flatMap] at h
  obtain ⟨p, -, hp⟩ := h
  simp [sendEffects] at hp

/-- C6: for every message count `M`, one complete execution of `sendMessages` in
which no emit throws raises `messagesSent` by exactly `M`, appends exactly `M`
latency samples, leaves `errorsMessage` (and every other counter) unchanged, and
its effects are `M` think-time/emit pairs, then the 5000 ms drain wait, then
`socket.close()`, which is called exactly once. -/
theorem sendMessages_complete (env : Env) (socket : Socket) (userId : UserId)
    (roomId : Option String) (t : Tester)
    (h : ∀ i, i < t.config.messages → env.emitFails userId i = none) :
    ∃ (samples : List ℚ) (sends : List (ℚ × String)),
      samples.length = t.config.messages ∧ sends.length = t.config.messages ∧
      (sendMessages env socket userId roomId t).metrics =
        { t.metrics with
          messagesSent := t.metrics.messagesSent + t.config.messages
          latencies := t.metrics.latencies ++ samples } ∧
      (sendMessages env socket userId roomId t).metrics.messagesSent =
        t.metrics.messagesSent + t.config.messages ∧
      (sendMessages env socket userId roomId t).metrics.latencies.length =
        t.metrics.latencies.length + t.config.messages ∧
      (sendMessages env socket userId roomId t).metrics.errorsMessage =
        t.metrics.errorsMessage ∧
      (sendMessages env socket userId roomId t).trace =
        t.trace ++ sends.flatMap (sendEffects socket roomId) ++
          [.sleep 5000, .close socket] ∧
      (sends.flatMap (sendEffects socket roomId) ++
          [Action.sleep 5000, Action.close socket]).count (.close socket) = 1 := by
  obtain ⟨samples, sends, hn1, hn2, hm, ht, -, -, -⟩ :=
    sendLoop_ok env socket userId roomId t.config.messages (List.range t.config.messages)
      (fun i hi => h i (List.mem_range.mp hi)) t
  rw [List.length_range] at hn1 hn2
  rw [List.length_range] at hm
  refine ⟨samples, sends, hn1, hn2, ?_, ?_, ?_, ?_, ?_, ?_⟩
  · simp only [sendMessages, act_metrics, sleep_metrics, hm]
  · simp only [sendMessages, act_metrics, sleep_metrics, hm]
  · simp only [sendMessages, act_metrics, sleep_metrics, hm, List.length_append, hn1]
  · simp only [sendMessages, act_metrics, sleep_metrics, hm]
  · simp only [sendMessages, act_trace, sleep_trace, ht, List.append_assoc,
      List.cons_append, List.nil_append]
  · rw [List.count_append, List.count_eq_zero.mpr (close_not_mem_sends socket roomId sends)]
    simp [List.count_cons]

/-- Witness of C6: three messages on a channel whose emits never throw. -/
theorem sendMessages_complete_witness :
    (∀ i, i < ({ config := { messages := 3 } } : Tester).config.messages →
      (sampleEnv fullAuth []).emitFails (.index 0) i = none) ∧
    ∃ (samples : List ℚ) (sends : List (ℚ × String)),
      samples.length = 3 ∧ sends.length = 3 ∧
      (sendMessages (sampleEnv fullAuth []) sampleSocket (.index 0) (some "r1")
          { config := { messages := 3 } }).metrics =
        { ({ config := { messages := 3 } } : Tester).metrics with
          messagesSent := 0 + 3
          latencies := [] ++ samples } ∧
      (sendMessages (sampleEnv fullAuth []) sampleSocket (.index 0) (some "r1")
          { config := { messages := 3 } }).metrics.messagesSent = 0 + 3 ∧
      (sendMessages (sampleEnv fullAuth []) sampleSocket (.index 0) (some "r1")
          { config := { messages := 3 } }).metrics.latencies.length = 0 + 3 ∧
      (sendMessages (sampleEnv fullAuth []) sampleSocket (.index 0) (some "r1")
          { config := { messages := 3 } }).metrics.errorsMessage = 0 ∧
      (sendMessages (sampleEnv fullAuth []) sampleSocket (.index 0) (some "r1")
          { config := { messages := 3 } }).trace =
        [] ++ sends.flatMap (sendEffects sampleSocket (some "r1")) ++
          [.sleep 5000, .close sampleSocket] ∧
      (sends.flatMap (sendEffects sampleSocket (some "r1")) ++
          [Action.sleep 5000, Action.close sampleSocket]).count (.close sampleSocket) = 1 :=
  ⟨fun _ _ => rfl,
    sendMessages_complete (sampleEnv fullAuth []) sampleSocket (.index 0) (some "r1")
      { config := { messages := 3 } } (fun _ _ => rfl)⟩

/-- One pass of the send loop, whatever its emit does, touches neither
`usersCreated` nor `disconnected`. -/
theorem sendMessage_frame (env : Env) (socket : Socket) (userId : UserId)
    (roomId : Option String) (messageCount i : Nat) (t : Tester) :
    (sendMessage env socket userId roomId messageCount i t).metrics.usersCreated =
      t.metrics.usersCreated ∧
    (sendMessage env socket userId roomId messageCount i t).metrics.disconnected =
      t.metrics.disconnected := by
  unfold sendMessage
  cases env.emitFails userId i <;>
    simp [Tester.sleep, Tester.act, Tester.tick, Tester.incErrorsMessage]

/-- The send loop touches neither `usersCreated` nor `disconnected`. -/
theorem sendLoop_frame (env : Env) (socket : Socket) (userId : UserId)
    (roomId : Option String) (messageCount : Nat) (l : List Nat) (t : Tester) :
    (l.foldl (fun t i => sendMessage env socket userId roomId messageCount i t)
        t).metrics.usersCreated = t.metrics.usersCreated ∧
    (l.foldl (fun t i => sendMessage env socket userId roomId messageCount i t)
        t).metrics.disconnected = t.metrics.disconnected := by
  induction l generalizing t with
  | nil => exact ⟨rfl, rfl⟩
  | cons i l ih =>
    obtain ⟨h1, h2⟩ := sendMessage_frame env socket userId roomId messageCount i t
    obtain ⟨h3, h4⟩ := ih (sendMessage env socket userId roomId messageCount i t)
    rw [List.foldl_cons]
    exact ⟨h3.trans h1, h4.trans h2⟩

/-- Method `sendMessages` touches neither `usersCreated` nor `disconnected`. -/
theorem sendMessages_frame (env : Env) (socket : Socket) (userId : UserId)
    (roomId : Option String) (t : Tester) :
    (sendMessages env socket userId roomId t).metrics.usersCreated = t.metrics.usersCreated ∧
    (sendMessages env socket userId roomId t).metrics.disconnected =
      t.metrics.disconnected := by
  simp only [sendMessages, act_metrics, sleep_metrics]
  exact sendLoop_frame env socket userId roomId _ _ t

/-- A handler changes `disconnected` only for a `disconnect` event, by one, and
never changes `usersCreated`. -/
theorem handleEvent_counts (env : Env) (s : Session) (e : ChannelEvent) (t : Tester) :
    (handleEvent env s e t).metrics.disconnected =
      t.metrics.disconnected + (if e.isDisconnect then 1 else 0) ∧
    (handleEvent env s e t).metrics.usersCreated = t.metrics.usersCreated := by
  cases e with
  | joinRoomSuccess participants =>
    obtain ⟨h1, h2⟩ := sendMessages_frame env s.socket s.userId s.roomId
      (t.log env "info"
        ("User " ++ s.userId.text ++ " joined room " ++ showText s.roomId ++ " with " ++
          toString (participants.getD 0) ++ " participants") [])
    simp only [handleEvent, ChannelEvent.isDisconnect]
    exact ⟨by simpa using h2, by simpa using h1⟩
  | message id =>
    by_cases h : truthy id = true <;> simp [handleEvent, ChannelEvent.isDisconnect, h]
  | _ =>
    simp [handleEvent, ChannelEvent.isDisconnect, Tester.incErrorsConnection,
      Tester.incErrorsMessage, Tester.tick]

/-- Delivering events raises `disconnected` by the number of `disconnect` events
among them and leaves `usersCreated` alone. -/
theorem deliver_counts (env : Env) (s : Session) (events : List ChannelEvent) (t : Tester) :
    (deliver env s events t).metrics.disconnected =
      t.metrics.disconnected + events.countP ChannelEvent.isDisconnect ∧
    (deliver env s events t).metrics.usersCreated = t.metrics.usersCreated := by
  induction events generalizing t with
  | nil => exact ⟨rfl, rfl⟩
  | cons e es ih =>
    obtain ⟨h1, h2⟩ := handleEvent_counts env s e t
    obtain ⟨h3, h4⟩ := ih (handleEvent env s e t)
    simp only [deliver, List.foldl_cons] at h3 h4 ⊢
    refine ⟨?_, h4.trans h2⟩
    rw [h3, h1, List.countP_cons]
    cases e.isDisconnect <;> simp
    omega

/-- C7 (as stated, refuted): a session that reconnects and is disconnected a
second time ends with `disconnected = 2`; a session closed by the
`connect_error` handler (`socket.close()` called, promise resolved) ends with
`disconnected = 0`. -/
theorem disconnected_counterexample :
    (deliver (sampleEnv fullAuth []) sampleSession
        [.connect, .disconnect "transport close", .connect, .disconnect "transport close"]
        { config := sampleConfig }).metrics.disconnected = 2 ∧
    (deliver (sampleEnv fullAuth []) sampleSession [.connect_error "timeout"]
        { config := sampleConfig }).metrics.disconnected = 0 ∧
    (deliver (sampleEnv fullAuth []) sampleSession [.connect_error "timeout"]
        { config := sampleConfig }).trace =
      [.close sampleSocket, .resolve (.index 0)] := by
  refine ⟨?_, ?_, rfl⟩
  · rw [(deliver_counts _ _ _ _).1]; rfl
  · rw [(deliver_counts _ _ _ _).1]; rfl

/-- C7 (amended): for every session and every sequence of channel events
delivered to its handlers, `disconnected` grows by exactly the number of
`disconnect` events in the sequence: each `disconnect` event adds one, also a
repeated one, and no other handler adds any; the `joinRoomError` and
`connect_error` handlers call `socket.close()` and resolve the session without
touching `disconnected`. -/
theorem disconnected_counts_disconnect_events (env : Env) (s : Session)
    (events : List ChannelEvent) (t : Tester) :
    (deliver env s events t).metrics.disconnected =
      t.metrics.disconnected + events.countP ChannelEvent.isDisconnect ∧
    (∀ reason, (handleEvent env s (.disconnect reason) t).metrics.disconnected =
      t.metrics.disconnected + 1) ∧
    (∀ message json,
      (handleEvent env s (.joinRoomError message json) t).metrics.disconnected =
        t.metrics.disconnected ∧
      (handleEvent env s (.joinRoomError message json) t).trace =
        t.trace ++ [.close s.socket, .resolve s.userId]) ∧
    (∀ message,
      (handleEvent env s (.connect_error message) t).metrics.disconnected =
        t.metrics.disconnected ∧
      (handleEvent env s (.connect_error message) t).trace =
        t.trace ++ [.close s.socket, .resolve s.userId]) := by
  refine ⟨(deliver_counts env s events t).1, ?_, ?_, ?_⟩
  · intro reason
    simpa [ChannelEvent.isDisconnect] using (handleEvent_counts env s (.disconnect reason) t).1
  · intro message json
    refine ⟨by simpa [ChannelEvent.isDisconnect] using
      (handleEvent_counts env s (.joinRoomError message json) t).1, ?_⟩
    simp [handleEvent, Tester.incErrorsConnection]
  · intro message
    refine ⟨by simpa [ChannelEvent.isDisconnect] using
      (handleEvent_counts env s (.connect_error message) t).1, ?_⟩
    simp [handleEvent, Tester.incErrorsConnection]

/-- The buffer after one `log` call on a buffer within capacity: the old
entries and the new one, without the oldest if that makes one too many. -/
theorem log_buffer (env : Env) (l m : String) (a : List String) (t : Tester)
    (hlen : t.logBuffer.length ≤ t.maxLogLines) :
    (t.log env l m a).logBuffer =
      (t.logBuffer ++ [formatEntry env (env.clock t.clockReads) l m a]).drop
        (t.logBuffer.length + 1 - t.maxLogLines) ∧
    (t.log env l m a).logBuffer.length ≤ t.maxLogLines ∧
    (t.log env l m a).maxLogLines = t.maxLogLines ∧
    (t.log env l m a).clockReads = t.clockReads + 1 := by
  simp only [Tester.log, List.length_append, List.length_singleton]
  by_cases h : t.logBuffer.length + 1 > t.maxLogLines
  · have hd : t.logBuffer.length + 1 - t.maxLogLines = 1 := by omega
    rw [if_pos h, hd]
    refine ⟨by simp, ?_, trivial, trivial⟩
    simp only [List.length_tail, List.length_append, List.length_singleton]
    omega
  · have hd : t.logBuffer.length + 1 - t.maxLogLines = 0 := by omega
    rw [if_neg h, hd]
    refine ⟨by simp, ?_, trivial, trivial⟩
    simp only [List.length_append, List.length_singleton]
    omega

theorem loggedEntries_length (env : Env) (k : Nat) (calls : List LogCall) :
    (loggedEntries env k calls).length = calls.length := by
  induction calls generalizing k with
  | nil => rfl
  | cons c cs ih => simp [loggedEntries, ih]

/-- After any sequence of `log` calls on a buffer within capacity the buffer is
the old entries followed by the logged ones, cut to the last `maxLogLines`. -/
theorem logAll_buffer (env : Env) (calls : List LogCall) (t : Tester)
    (hlen : t.logBuffer.length ≤ t.maxLogLines) :
    (logAll env calls t).logBuffer =
      (t.logBuffer ++ loggedEntries env t.clockReads calls).drop
        (t.logBuffer.length + calls.length - t.maxLogLines) ∧
    (logAll env calls t).logBuffer.length ≤ t.maxLogLines := by
  induction calls generalizing t with
  | nil =>
    have hd : t.logBuffer.length + 0 - t.maxLogLines = 0 := by omega
    simp only [logAll, List.foldl_nil, loggedEntries, List.append_nil, List.length_nil, hd,
      List.drop_zero]
    exact ⟨trivial, hlen⟩
  | cons c cs ih =>
    obtain ⟨hb, hl, hm, hc⟩ := log_buffer env c.level c.message c.args t hlen
    obtain ⟨h1, h2⟩ := ih (t.log env c.level c.message c.args) (hm ▸ hl)
    simp only [logAll, List.foldl_cons] at h1 h2 ⊢
    rw [hm] at h1 h2
    refine ⟨?_, h2⟩
    rw [h1, hc]
    have hlen' : (t.log env c.level c.message c.args).logBuffer.length =
        t.logBuffer.length + 1 - (t.logBuffer.length + 1 - t.maxLogLines) := by
      rw [hb]; simp
    rw [hlen', hb]
    have hle : t.logBuffer.length + 1 - t.maxLogLines ≤
        (t.logBuffer ++ [formatEntry env (env.clock t.clockReads) c.level c.message c.args]).length := by
      simp only [List.length_append, List.length_singleton]; omega
    rw [← List.drop_append_of_le_length hle, List.drop_drop]
    simp only [loggedEntries, List.append_assoc, List.singleton_append, List.length_cons]
    congr 1
    omega

/-- C8: `logBuffer` never holds more than `maxLogLines` (10) entries after a
`log` call returns; a call on a buffer holding 10 entries removes the oldest,
keeps the other 9 in order and puts the new entry last; starting from the
constructor, after `k` calls the buffer is the last `min(k, 10)` entries logged,
in order. -/
theorem logBuffer_keeps_last_ten (env : Env) :
    (∀ (t : Tester) (l m : String) (a : List String),
      t.logBuffer.length ≤ t.maxLogLines →
        (t.log env l m a).logBuffer.length ≤ (t.log env l m a).maxLogLines) ∧
    (∀ (t : Tester) (l m : String) (a : List String),
      t.maxLogLines = 10 → t.logBuffer.length = 10 →
        (t.log env l m a).logBuffer =
          t.logBuffer.tail ++ [formatEntry env (env.clock t.clockReads) l m a] ∧
        (t.log env l m a).logBuffer.length = 10) ∧
    (∀ (config : Config) (calls : List LogCall),
      (logAll env calls (Tester.new env config)).logBuffer.length ≤ 10 ∧
      (logAll env calls (Tester.new env config)).logBuffer.length = min calls.length 10 ∧
      (logAll env calls (Tester.new env config)).logBuffer =
        (loggedEntries env 1 calls).drop (calls.length - 10)) := by
  refine ⟨?_, ?_, ?_⟩
  · intro t l m a hlen
    obtain ⟨-, hl, hm, -⟩ := log_buffer env l m a t hlen
    rw [hm]; exact hl
  · intro t l m a hmax hlen
    obtain ⟨hb, -, -, -⟩ := log_buffer env l m a t (by omega)
    have hd : t.logBuffer.length + 1 - t.maxLogLines = 1 := by omega
    rw [hd] at hb
    have hne : t.logBuffer ≠ [] := by
      intro h; rw [h] at hlen; simp at hlen
    have htail : (t.logBuffer ++ [formatEntry env (env.clock t.clockReads) l m a]).drop 1 =
        t.logBuffer.tail ++ [formatEntry env (env.clock t.clockReads) l m a] := by
      cases hbuf : t.logBuffer with
      | nil => exact absurd hbuf hne
      | cons x xs => simp
    rw [hb, htail]
    refine ⟨rfl, ?_⟩
    simp only [List.length_append, List.length_tail, List.length_singleton]
    omega
  · intro config calls
    obtain ⟨hb, hl⟩ := logAll_buffer env calls (Tester.new env config)
      (by simp [Tester.new])
    have hb' : (logAll env calls (Tester.new env config)).logBuffer =
        (loggedEntries env 1 calls).drop (calls.length - 10) := by
      rw [hb]; simp [Tester.new]
    refine ⟨by simpa [Tester.new] using hl, ?_, hb'⟩
    rw [hb', List.length_drop, loggedEntries_length]
    omega

/-- Witness of C8: eleven `log` calls on a fresh tester leave the last ten. -/
theorem logBuffer_keeps_last_ten_witness :
    (logAll (sampleEnv fullAuth [])
        ((List.range 11).map fun i => { level := "info", message := toString i })
        (Tester.new (sampleEnv fullAuth []) sampleConfig)).logBuffer.length ≤ 10 ∧
    (logAll (sampleEnv fullAuth [])
        ((List.range 11).map fun i => { level := "info", message := toString i })
        (Tester.new (sampleEnv fullAuth []) sampleConfig)).logBuffer.length =
      min ((List.range 11).map fun i =>
        ({ level := "info", message := toString i } : LogCall)).length 10 ∧
    (logAll (sampleEnv fullAuth [])
        ((List.range 11).map fun i => { level := "info", message := toString i })
        (Tester.new (sampleEnv fullAuth []) sampleConfig)).logBuffer =
      (loggedEntries (sampleEnv fullAuth []) 1
        ((List.range 11).map fun i => { level := "info", message := toString i })).drop
        (((List.range 11).map fun i =>
          ({ level := "info", message := toString i } : LogCall)).length - 10) :=
  (logBuffer_keeps_last_ten (sampleEnv fullAuth [])).2.2 sampleConfig
    ((List.range 11).map fun i => { level := "info", message := toString i })

/-! ### The array `promises` and the user count of a run -/

/-- Method `createTestUser` does not touch `promises`. -/
theorem createTestUser_promises (env : Env) (userId : UserId) (t : Tester) :
    (createTestUser env userId t).2.promises = t.promises := by
  unfold createTestUser
  cases env.login userId with
  | ok a => rfl
  | error e =>
    simp only
    split_ifs
    · cases env.register userId <;> rfl
    · rfl

/-- One pass of the send loop does not touch `promises`. -/
theorem sendMessage_promises (env : Env) (socket : Socket) (userId : UserId)
    (roomId : Option String) (messageCount i : Nat) (t : Tester) :
    (sendMessage env socket userId roomId messageCount i t).promises = t.promises := by
  unfold sendMessage
  cases env.emitFails userId i <;> rfl

/-- Method `sendMessages` does not touch `promises`. -/
theorem sendMessages_promises (env : Env) (socket : Socket) (userId : UserId)
    (roomId : Option String) (t : Tester) :
    (sendMessages env socket userId roomId t).promises = t.promises := by
  have hfold : ∀ (n : Nat) (l : List Nat) (t : Tester),
      (l.foldl (fun t i => sendMessage env socket userId roomId n i t) t).promises =
        t.promises := by
    intro n l
    induction l with
    | nil => intro t; rfl
    | cons i l ih =>
      intro t
      rw [List.foldl_cons, ih, sendMessage_promises]
  simp only [sendMessages, act_promises, sleep_promises]
  exact hfold _ _ t

/-- No handler touches `promises`. -/
theorem handleEvent_promises (env : Env) (s : Session) (e : ChannelEvent) (t : Tester) :
    (handleEvent env s e t).promises = t.promises := by
  cases e with
  | joinRoomSuccess participants =>
    simp only [handleEvent]
    rw [sendMessages_promises]
    rfl
  | message id =>
    by_cases h : truthy id = true <;> simp [handleEvent, h]
  | _ => rfl

/-- Delivering events does not touch `promises`. -/
theorem deliver_promises (env : Env) (s : Session) (events : List ChannelEvent)
    (t : Tester) : (deliver env s events t).promises = t.promises := by
  induction events generalizing t with
  | nil => rfl
  | cons e es ih =>
    simp only [deliver, List.foldl_cons] at ih ⊢
    rw [ih, handleEvent_promises]

/-- Registering the handlers changes no counter. -/
theorem registerHandlers_metrics (socket : Socket) (names : List String) (t : Tester) :
    (names.foldl (fun t name => t.act (.on socket name)) t).metrics = t.metrics := by
  induction names generalizing t with
  | nil => rfl
  | cons n ns ih => rw [List.foldl_cons, ih]; rfl

/-- Registering the handlers does not touch `promises`. -/
theorem registerHandlers_promises (socket : Socket) (names : List String) (t : Tester) :
    (names.foldl (fun t name => t.act (.on socket name)) t).promises = t.promises := by
  induction names generalizing t with
  | nil => rfl
  | cons n ns ih => rw [List.foldl_cons, ih]; rfl

/-- Method `simulateUser` does not touch `promises`. -/
theorem simulateUser_promises (env : Env) (userId : UserId) (roomId : Option String)
    (t : Tester) : (simulateUser env userId roomId t).2.promises = t.promises := by
  have hp := createTestUser_promises env userId t.tick
  rcases hc : createTestUser env userId t.tick with ⟨o, t1⟩
  rw [hc] at hp
  simp only [tick_promises] at hp
  simp only [simulateUser, hc]
  cases o with
  | none => exact hp
  | some b =>
    cases b with
    | empty => exact hp
    | object a =>
      simp only
      split_ifs
      · simpa [Tester.incErrorsAuth] using hp
      · simp only [registerHandlers_promises]
        simpa using hp

/-- A whole session does not touch `promises`. -/
theorem runSession_promises (env : Env) (userId : UserId) (roomId : Option String)
    (t : Tester) : (runSession env userId roomId t).2.promises = t.promises := by
  have hp := simulateUser_promises env userId roomId t
  unfold runSession
  rcases hsim : simulateUser env userId roomId t with ⟨o, t1⟩
  rw [hsim] at hp
  cases o with
  | none => exact hp
  | some s =>
    simp only
    rw [deliver_promises]
    exact hp

/-- Launching user `i` pushes exactly one promise, the one of user `i`. -/
theorem launch_promises (env : Env) (roomId : Option String) (t : Tester) (i : Nat) :
    (launch env roomId t i).promises =
      t.promises ++ [{ userId := i, settled := (runSession env (.index i) roomId t).1 }] ∧
    (launch env roomId t i).metrics = (runSession env (.index i) roomId t).2.metrics := by
  simp only [launch, runSession_promises]
  exact ⟨trivial, trivial⟩

/-- Launching a list of users pushes their promises in order. -/
theorem launchAll_userIds (env : Env) (roomId : Option String) (users : List Nat)
    (t : Tester) :
    ((users.foldl (fun t i => launch env roomId t i) t).promises.map (·.userId)) =
      t.promises.map (·.userId) ++ users := by
  induction users generalizing t with
  | nil => simp
  | cons i is ih =>
    rw [List.foldl_cons, ih, (launch_promises env roomId t i).1]
    simp

/-- One batch pushes the promises of its users, in order. -/
theorem spawnBatch_userIds (env : Env) (roomId : Option String) (count : BatchCount)
    (t : Tester) (b : Batch) :
    (spawnBatch env roomId count t b).promises.map (·.userId) =
      t.promises.map (·.userId) ++ b.users := by
  have h := launchAll_userIds env roomId b.users
    (t.log env "info"
      ("Spawning batch " ++ toString b.batchNum ++ "/" ++ count.text ++ " (users " ++
        toString b.batchStart ++ "-" ++ toString ((b.batchEnd : Int) - 1) ++ ")...") [])
  unfold spawnBatch
  split_ifs
  · simpa using h
  · simpa using h

/-- A plan pushes the promises of the users it launches, batch after batch. -/
theorem plan_userIds (env : Env) (roomId : Option String) (count : BatchCount)
    (plan : List Batch) (t : Tester) :
    (plan.foldl (spawnBatch env roomId count) t).promises.map (·.userId) =
      t.promises.map (·.userId) ++ plan.flatMap (·.users) := by
  induction plan generalizing t with
  | nil => simp
  | cons b bs ih =>
    rw [List.foldl_cons, ih, spawnBatch_userIds]
    simp

/-- When authentication succeeds `createTestUser` returns a credential object. -/
theorem createTestUser_of_succeeds (env : Env) (userId : UserId) (t : Tester)
    (h : authSucceeds env userId = true) :
    ∃ a, (createTestUser env userId t).1 = some (.object a) := by
  unfold authSucceeds at h
  unfold createTestUser
  cases hl : env.login userId with
  | ok b =>
    rw [hl] at h
    cases b with
    | empty => exact absurd h (by simp)
    | object a => exact ⟨a, rfl⟩
  | error e =>
    rw [hl] at h
    simp only [Bool.and_eq_true, decide_eq_true_eq] at h
    obtain ⟨hs, hr⟩ := h
    simp only [if_pos hs]
    cases hreg : env.register userId with
    | ok b =>
      rw [hreg] at hr
      cases b with
      | empty => exact absurd hr (by simp)
      | object a => exact ⟨a, rfl⟩
    | error e2 => rw [hreg] at hr; exact absurd hr (by simp)

/-- With a successful authentication `simulateUser` counts exactly one user. -/
theorem simulateUser_usersCreated (env : Env) (userId : UserId) (roomId : Option String)
    (t : Tester) (h : authSucceeds env userId = true) :
    (simulateUser env userId roomId t).2.metrics.usersCreated = t.metrics.usersCreated + 1 := by
  obtain ⟨a, ha⟩ := createTestUser_of_succeeds env userId t.tick h
  obtain ⟨hm, -, -, -⟩ := createTestUser_some env userId t.tick _ ha
  rcases hc : createTestUser env userId t.tick with ⟨o, t1⟩
  rw [hc] at ha hm
  simp only at ha hm
  subst ha
  simp only [simulateUser, hc]
  split_ifs
  · simp [Tester.incErrorsAuth, hm]
  · simp only [registerHandlers_metrics, act_metrics, hm]
    simp

/-- A whole session with a successful authentication counts exactly one user,
and is settled when its channel delivers a resolving event. -/
theorem runSession_usersCreated (env : Env) (userId : UserId) (roomId : Option String)
    (t : Tester) (h : authSucceeds env userId = true)
    (hsettle : (env.events userId).any ChannelEvent.resolves = true) :
    (runSession env userId roomId t).2.metrics.usersCreated = t.metrics.usersCreated + 1 ∧
    (runSession env userId roomId t).1 = true := by
  have hu := simulateUser_usersCreated env userId roomId t h
  unfold runSession
  rcases hsim : simulateUser env userId roomId t with ⟨o, t1⟩
  rw [hsim] at hu
  cases o with
  | none => exact ⟨hu, rfl⟩
  | some s =>
    refine ⟨?_, hsettle⟩
    simp only
    rw [(deliver_counts env s (env.events userId) t1).2]
    exact hu

/-- Launching users whose authentication succeeds and whose sessions settle
counts one user each and keeps every promise settled. -/
theorem launchAll_usersCreated (env : Env) (roomId : Option String) (users : List Nat)
    (t : Tester) (h : ∀ uid, authSucceeds env uid = true)
    (hsettle : ∀ uid, (env.events uid).any ChannelEvent.resolves = true)
    (hall : t.promises.all (·.settled) = true) :
    (users.foldl (fun t i => launch env roomId t i) t).metrics.usersCreated =
      t.metrics.usersCreated + users.length ∧
    (users.foldl (fun t i => launch env roomId t i) t).promises.all (·.settled) = true := by
  induction users generalizing t with
  | nil => exact ⟨rfl, hall⟩
  | cons i is ih =>
    obtain ⟨h1, h2⟩ := runSession_usersCreated env (.index i) roomId t (h _) (hsettle _)
    obtain ⟨hp, hm⟩ := launch_promises env roomId t i
    have hall' : (launch env roomId t i).promises.all (·.settled) = true := by
      rw [hp, List.all_append, hall, h2]
      rfl
    obtain ⟨h3, h4⟩ := ih (launch env roomId t i) hall'
    simp only [List.foldl_cons, List.length_cons]
    refine ⟨?_, h4⟩
    rw [h3, hm, h1]
    omega

/-- One batch counts one user for each of its users. -/
theorem spawnBatch_usersCreated (env : Env) (roomId : Option String) (count : BatchCount)
    (t : Tester) (b : Batch) (h : ∀ uid, authSucceeds env uid = true)
    (hsettle : ∀ uid, (env.events uid).any ChannelEvent.resolves = true)
    (hall : t.promises.all (·.settled) = true) :
    (spawnBatch env roomId count t b).metrics.usersCreated =
      t.metrics.usersCreated + b.users.length ∧
    (spawnBatch env roomId count t b).promises.all (·.settled) = true := by
  obtain ⟨h1, h2⟩ := launchAll_usersCreated env roomId b.users
    (t.log env "info"
      ("Spawning batch " ++ toString b.batchNum ++ "/" ++ count.text ++ " (users " ++
        toString b.batchStart ++ "-" ++ toString ((b.batchEnd : Int) - 1) ++ ")...") [])
    h hsettle (by simpa using hall)
  unfold spawnBatch
  split_ifs
  · exact ⟨by simpa using h1, by simpa using h2⟩
  · exact ⟨by simpa using h1, by simpa using h2⟩

/-- A plan counts one user for each user it launches. -/
theorem plan_usersCreated (env : Env) (roomId : Option String) (count : BatchCount)
    (plan : List Batch) (t : Tester) (h : ∀ uid, authSucceeds env uid = true)
    (hsettle : ∀ uid, (env.events uid).any ChannelEvent.resolves = true)
    (hall : t.promises.all (·.settled) = true) :
    (plan.foldl (spawnBatch env roomId count) t).metrics.usersCreated =
      t.metrics.usersCreated + (plan.flatMap (·.users)).length ∧
    (plan.foldl (spawnBatch env roomId count) t).promises.all (·.settled) = true := by
  induction plan generalizing t with
  | nil => exact ⟨rfl, hall⟩
  | cons b bs ih =>
    obtain ⟨h1, h2⟩ := spawnBatch_usersCreated env roomId count t b h hsettle hall
    obtain ⟨h3, h4⟩ := ih (spawnBatch env roomId count t b) h2
    simp only [List.foldl_cons, List.flatMap_cons, List.length_append]
    exact ⟨by rw [h3, h1]; omega, h4⟩

/-- With working endpoints `createTestRoom` returns a room; it counts no user
when a room is configured and one user, the admin, when it is not. -/
theorem createTestRoom_usersCreated (env : Env) (t : Tester)
    (h : ∀ uid, authSucceeds env uid = true)
    (hroom : ∀ tok, ∃ r, env.createRoom tok = .ok r) :
    ∃ roomId t1, createTestRoom env t = (.ok roomId, t1) ∧
      t1.metrics.usersCreated =
        t.metrics.usersCreated + (if truthy t.config.roomId then 0 else 1) ∧
      t1.config = t.config := by
  unfold createTestRoom
  by_cases hr : truthy t.config.roomId = true
  · simp only [hr, if_true]
    exact ⟨_, _, rfl, by simp, by simp⟩
  · simp only [hr, if_false, Bool.false_eq_true]
    obtain ⟨a, ha⟩ := createTestUser_of_succeeds env .admin
      (t.log env "info" "Creating test room admin user..." []) (h _)
    obtain ⟨hm, -, -, hcfg⟩ := createTestUser_some env .admin
      (t.log env "info" "Creating test room admin user..." []) _ ha
    rcases hc : createTestUser env .admin
      (t.log env "info" "Creating test room admin user..." []) with ⟨o, t1⟩
    rw [hc] at ha hm hcfg
    simp only at ha hm hcfg
    subst ha
    simp only
    obtain ⟨r, hr'⟩ := hroom (jsOr a.token (a.data.bind (·.token)))
    rw [hr']
    refine ⟨_, _, rfl, ?_, ?_⟩
    · simp [hm]
    · simp [hcfg]

/-- The users a plan of `ceil(N/B)` batches launches number `N`. -/
theorem plan_users_length (N B : Nat) (hB : 1 ≤ B) :
    (batchPlan N B ⌈(N : ℚ) / (B : ℚ)⌉₊).flatMap (·.users) = List.range N := by
  obtain ⟨-, hcover, -⟩ := totalBatches_spec N B hB
  have := launched_eq N B ⌈(N : ℚ) / (B : ℚ)⌉₊
  unfold launched at this
  rw [this]
  congr 1
  omega

/-- With a positive batch size, working endpoints and sessions that all settle,
`run` exits with code 0 having counted every launched user, plus the admin user
when the room was created on the fly. -/
theorem run_counts_users (env : Env) (t : Tester) (hB : 1 ≤ t.config.batchSize)
    (h : ∀ uid, authSucceeds env uid = true)
    (hroom : ∀ tok, ∃ r, env.createRoom tok = .ok r)
    (hsettle : ∀ uid, (env.events uid).any ChannelEvent.resolves = true) :
    ∃ t1, run env t = .exit 0 t1 ∧
      t1.metrics.usersCreated =
        t.metrics.usersCreated + t.config.totalUsers +
          (if truthy t.config.roomId then 0 else 1) := by
  obtain ⟨roomId, t1, hc, hu, -⟩ := createTestRoom_usersCreated env t h hroom
  obtain ⟨hT, -, -⟩ := totalBatches_spec t.config.totalUsers t.config.batchSize hB
  have hlen := congrArg List.length (plan_users_length t.config.totalUsers t.config.batchSize hB)
  rw [List.length_range] at hlen
  unfold run
  simp only [hc, hT, BatchCount.iterations]
  generalize hstart : ({ (((t1.log env "info"
      ("Starting load test: " ++ toString t.config.totalUsers ++ " users in " ++
        (BatchCount.finite ⌈(t.config.totalUsers : ℚ) / (t.config.batchSize : ℚ)⌉₊).text ++
        " batches") []).log env "info"
      ("Batch configuration: " ++ toString t.config.batchSize ++ " users every " ++
        toString (t1.log env "info"
          ("Starting load test: " ++ toString t.config.totalUsers ++ " users in " ++
            (BatchCount.finite ⌈(t.config.totalUsers : ℚ) / (t.config.batchSize : ℚ)⌉₊).text ++
            " batches") []).config.batchDelay ++ "ms") []).log env "info"
      ("Target room: " ++ showText roomId) []).tick with promises := [] } : Tester) = t2
  have hm2 : t2.metrics = t1.metrics := by rw [← hstart]; rfl
  have hp2 : t2.promises.all (·.settled) = true := by rw [← hstart]; rfl
  obtain ⟨h1, h2⟩ := plan_usersCreated env roomId
    (.finite ⌈(t.config.totalUsers : ℚ) / (t.config.batchSize : ℚ)⌉₊)
    (batchPlan t.config.totalUsers t.config.batchSize
      ⌈(t.config.totalUsers : ℚ) / (t.config.batchSize : ℚ)⌉₊) t2 h hsettle hp2
  simp only [log_promises]
  rw [if_pos h2]
  refine ⟨_, rfl, ?_⟩
  simp only [tick_metrics, log_metrics]
  rw [h1, hlen, hm2, hu]
  omega

/-- C9 (as stated, refuted): `users = 3, batchSize = 3`, no room id configured,
every authentication succeeding: the run ends with `usersCreated = 4`, the admin
user of `createTestRoom` being counted as well. -/
theorem usersCreated_counterexample :
    ∃ t1, run (sampleEnv fullAuth sampleEvents)
        (Tester.new (sampleEnv fullAuth sampleEvents) sampleConfig) = .exit 0 t1 ∧
      t1.metrics.usersCreated = 4 ∧
      t1.metrics.usersCreated ≠ sampleConfig.totalUsers := by
  obtain ⟨t1, h1, h2⟩ := run_counts_users (sampleEnv fullAuth sampleEvents)
    (Tester.new (sampleEnv fullAuth sampleEvents) sampleConfig) (by decide)
    (fun _ => rfl) (fun _ => ⟨_, rfl⟩) (fun _ => rfl)
  have h3 : t1.metrics.usersCreated = 4 := by rw [h2]; rfl
  refine ⟨t1, h1, h3, ?_⟩
  rw [h3]
  decide

/-- C9 (amended): for a run of `N` users with batch size at least 1 in which
every authentication succeeds, the room endpoint answers and every session
settles, `run()` exits with code 0 and `usersCreated` equals `N` when a room id
is configured and `N + 1` when the room is created on the fly (the admin user
goes through `createTestUser` too). -/
theorem usersCreated_after_run (env : Env) (config : Config) (hB : 1 ≤ config.batchSize)
    (hauth : ∀ uid, authSucceeds env uid = true)
    (hroom : ∀ tok, ∃ r, env.createRoom tok = .ok r)
    (hsettle : ∀ uid, (env.events uid).any ChannelEvent.resolves = true) :
    ∃ t1, run env (Tester.new env config) = .exit 0 t1 ∧
      t1.metrics.usersCreated =
        config.totalUsers + (if truthy config.roomId then 0 else 1) := by
  obtain ⟨t1, h1, h2⟩ := run_counts_users env (Tester.new env config) hB hauth hroom hsettle
  refine ⟨t1, h1, ?_⟩
  rw [h2]
  simp [Tester.new]

/-- Witness of the amended C9: 3 users, one batch of 3, a room given in advance:
`usersCreated = 3`. -/
theorem usersCreated_after_run_witness :
    (1 ≤ sampleConfigWithRoom.batchSize ∧
      (∀ uid, authSucceeds (sampleEnv fullAuth sampleEvents) uid = true) ∧
      (∀ tok, ∃ r, (sampleEnv fullAuth sampleEvents).createRoom tok = .ok r) ∧
      (∀ uid, ((sampleEnv fullAuth sampleEvents).events uid).any ChannelEvent.resolves = true)) ∧
    ∃ t1, run (sampleEnv fullAuth sampleEvents)
        (Tester.new (sampleEnv fullAuth sampleEvents) sampleConfigWithRoom) = .exit 0 t1 ∧
      t1.metrics.usersCreated =
        sampleConfigWithRoom.totalUsers +
          (if truthy sampleConfigWithRoom.roomId then 0 else 1) :=
  ⟨⟨by decide, fun _ => rfl, fun _ => ⟨_, rfl⟩, fun _ => rfl⟩,
    usersCreated_after_run (sampleEnv fullAuth sampleEvents) sampleConfigWithRoom (by decide)
      (fun _ => rfl) (fun _ => ⟨_, rfl⟩) (fun _ => rfl)⟩

/-- When the room is there and the batch size is positive, the array `promises`
of `run()` ends up holding one promise for each user `0 .. N-1`, in ascending
order, whatever the sessions do. -/
theorem run_userIds (env : Env) (t : Tester) (roomId : Option String) (t1 : Tester)
    (hB : 1 ≤ t.config.batchSize) (hc : createTestRoom env t = (.ok roomId, t1)) :
    (run env t).tester.promises.map (·.userId) = List.range t.config.totalUsers := by
  obtain ⟨hT, -, -⟩ := totalBatches_spec t.config.totalUsers t.config.batchSize hB
  have hplan := plan_users_length t.config.totalUsers t.config.batchSize hB
  unfold run
  simp only [hc, hT, BatchCount.iterations]
  generalize hstart : ({ (((t1.log env "info"
      ("Starting load test: " ++ toString t.config.totalUsers ++ " users in " ++
        (BatchCount.finite ⌈(t.config.totalUsers : ℚ) / (t.config.batchSize : ℚ)⌉₊).text ++
        " batches") []).log env "info"
      ("Batch configuration: " ++ toString t.config.batchSize ++ " users every " ++
        toString (t1.log env "info"
          ("Starting load test: " ++ toString t.config.totalUsers ++ " users in " ++
            (BatchCount.finite ⌈(t.config.totalUsers : ℚ) / (t.config.batchSize : ℚ)⌉₊).text ++
            " batches") []).config.batchDelay ++ "ms") []).log env "info"
      ("Target room: " ++ showText roomId) []).tick with promises := [] } : Tester) = t2
  have hp2 : t2.promises = [] := by rw [← hstart]
  have h := plan_userIds env roomId
    (.finite ⌈(t.config.totalUsers : ℚ) / (t.config.batchSize : ℚ)⌉₊)
    (batchPlan t.config.totalUsers t.config.batchSize
      ⌈(t.config.totalUsers : ℚ) / (t.config.batchSize : ℚ)⌉₊) t2
  rw [hp2, hplan] at h
  split_ifs
  · simpa [RunResult.tester] using h
  · simpa [RunResult.tester] using h

/-- C2: for `N ≥ 0` users and batch size `B ≥ 1` the batch loop of `run()` makes
exactly `ceil(N/B)` batches; batch `k` (0-based) launches the contiguous
half-open range `[k*B, min((k+1)*B, N))`; every batch is non-empty, every batch
but the last has exactly `B` users; carrying out a batch pushes one promise of
`simulateUser` for each of its users, in order; and a run whose room is there
ends with exactly one promise for each index `0 .. N-1`, in ascending order. -/
theorem batch_partition (N B : Nat) (hB : 1 ≤ B) :
    ∃ T : Nat, totalBatches N B = .finite T ∧ T = ⌈(N : ℚ) / (B : ℚ)⌉₊ ∧
      (batchPlan N B T).length = T ∧
      (∀ k, k < T → ∃ b, (batchPlan N B T)[k]? = some b ∧
        b.batchNum = k + 1 ∧
        b.batchStart = k * B ∧ b.batchEnd = min ((k + 1) * B) N ∧
        b.users = List.range' b.batchStart (b.batchEnd - b.batchStart) ∧
        (∀ i, i ∈ b.users ↔ k * B ≤ i ∧ i < min ((k + 1) * B) N) ∧
        b.users ≠ [] ∧
        (k + 1 < T → b.users.length = B) ∧
        (b.sleeps = true ↔ k + 1 < T)) ∧
      launched N B T = List.range N ∧
      (∀ (env : Env) (roomId : Option String) (count : BatchCount) (t : Tester) (b : Batch),
        (spawnBatch env roomId count t b).promises.map (·.userId) =
          t.promises.map (·.userId) ++ b.users) ∧
      (∀ (env : Env) (t : Tester) (roomId : Option String) (t1 : Tester),
        t.config.totalUsers = N → t.config.batchSize = B →
        createTestRoom env t = (.ok roomId, t1) →
        (run env t).tester.promises.map (·.userId) = List.range N) := by
  obtain ⟨hT, hcover, hstart⟩ := totalBatches_spec N B hB
  refine ⟨⌈(N : ℚ) / (B : ℚ)⌉₊, hT, rfl, by simp [batchPlan], ?_, ?_, ?_, ?_⟩
  · intro k hk
    have hkN : k * B < N := hstart k hk
    have hmul : (k + 1) * B = k * B + B := by ring
    refine ⟨_, by simp [batchPlan, List.getElem?_map, List.getElem?_range hk]; rfl,
      rfl, rfl, ?_, rfl, ?_, ?_, ?_, ?_⟩
    · simp only [hmul]
    · intro i
      simp only [batchUsers, List.mem_range', hmul]
      constructor
      · rintro ⟨j, hj, rfl⟩
        omega
      · rintro ⟨h1, h2⟩
        exact ⟨i - k * B, by omega, by omega⟩
    · intro h
      have hl := congrArg List.length h
      simp only [batchUsers, List.length_range', List.length_nil] at hl
      omega
    · intro hk1
      have := hstart (k + 1) hk1
      simp only [batchUsers, List.length_range']
      omega
    · simp only [decide_eq_true_eq]
      omega
  · rw [launched_eq]
    congr 1
    omega
  · intro env roomId count t b
    exact spawnBatch_userIds env roomId count t b
  · intro env t roomId t1 hN hBs hc
    have := run_userIds env t roomId t1 (by rw [hBs]; exact hB) hc
    rw [hN] at this
    exact this

/-- Witness of C2: 25 users in batches of 10. -/
theorem batch_partition_witness :
    (1 ≤ 10) ∧
    ∃ T : Nat, totalBatches 25 10 = .finite T ∧ T = ⌈((25 : Nat) : ℚ) / ((10 : Nat) : ℚ)⌉₊ ∧
      (batchPlan 25 10 T).length = T ∧
      (∀ k, k < T → ∃ b, (batchPlan 25 10 T)[k]? = some b ∧
        b.batchNum = k + 1 ∧
        b.batchStart = k * 10 ∧ b.batchEnd = min ((k + 1) * 10) 25 ∧
        b.users = List.range' b.batchStart (b.batchEnd - b.batchStart) ∧
        (∀ i, i ∈ b.users ↔ k * 10 ≤ i ∧ i < min ((k + 1) * 10) 25) ∧
        b.users ≠ [] ∧
        (k + 1 < T → b.users.length = 10) ∧
        (b.sleeps = true ↔ k + 1 < T)) ∧
      launched 25 10 T = List.range 25 ∧
      (∀ (env : Env) (roomId : Option String) (count : BatchCount) (t : Tester) (b : Batch),
        (spawnBatch env roomId count t b).promises.map (·.userId) =
          t.promises.map (·.userId) ++ b.users) ∧
      (∀ (env : Env) (t : Tester) (roomId : Option String) (t1 : Tester),
        t.config.totalUsers = 25 → t.config.batchSize = 10 →
        createTestRoom env t = (.ok roomId, t1) →
        (run env t).tester.promises.map (·.userId) = List.range 25) :=
  ⟨by decide, batch_partition 25 10 (by decide)⟩

/-- The plan for 25 users in batches of 10, evaluated: `[0,10)`, `[10,20)`,
`[20,25)`. -/
theorem batchPlan_25_10 :
    totalBatches 25 10 = .finite 3 ∧
    (batchPlan 25 10 3).map (fun b => (b.batchStart, b.batchEnd)) =
      [(0, 10), (10, 20), (20, 25)] ∧
    launched 25 10 3 = List.range 25 := by
  refine ⟨?_, by decide, by decide⟩
  have h : ⌈(25 : ℚ) / 10⌉₊ = 3 := by
    rw [Nat.ceil_eq_iff (by norm_num)]
    norm_num
  simp [totalBatches, h]

/-- A run of 25 users in batches of 10 with a room given in advance, whatever
the endpoints and the channel do: the promises are those of users `0 .. 24`. -/
theorem run_25_10_userIds (env : Env) :
    (run env { config := { totalUsers := 25, batchSize := 10, roomId := some "room-1" } }
      ).tester.promises.map (·.userId) = List.range 25 :=
  run_userIds env _ (some "room-1") _ (by decide) rfl

/-- Two arrangements of the same samples have the same sorted copy. -/
theorem sortAscending_of_perm (S S' : List ℚ) (hperm : S'.Perm S) :
    sortAscending S' = sortAscending S :=
  List.eq_of_perm_of_sorted
    (((sortAscending_perm S').trans hperm).trans (sortAscending_perm S).symm)
    (sortAscending_sorted S') (sortAscending_sorted S)

/-- The result of `getPercentile` is the same for every arrangement of the
samples. -/
theorem getPercentile_of_perm (S S' : List ℚ) (p : ℚ) (hperm : S'.Perm S) :
    getPercentile S' p = getPercentile S p := by
  simp only [getPercentile, sortAscending_of_perm S S' hperm, hperm.length_eq]

/-- Reading the store after the spread and the in-place sort of the copy: the
copy holds the sorted contents, every older array is as before. -/
theorem read_after_sorted_copy (h : Heap) (arr : Nat) :
    ((h.spread arr).2.sortInPlace (h.spread arr).1).read (h.spread arr).1 =
      sortAscending (h.read arr) ∧
    ∀ r, r < h.length →
      ((h.spread arr).2.sortInPlace (h.spread arr).1).read r = h.read r := by
  constructor
  · simp [Heap.read, Heap.spread, Heap.sortInPlace]
  · intro r hr
    have hne : h.length ≠ r := by omega
    simp [Heap.read, Heap.spread, Heap.sortInPlace, List.getElem?_set, hne,
      List.getElem?_append_left hr]

/-- On array objects `getPercentile` returns what it returns on the contents and
leaves every existing array as it was. -/
theorem getPercentileRef_spec (h : Heap) (arr : Nat) (p : ℚ) :
    (getPercentileRef h arr p).1 = getPercentile (h.read arr) p ∧
    ∀ r, r < h.length → (getPercentileRef h arr p).2.read r = h.read r := by
  obtain ⟨h1, h2⟩ := read_after_sorted_copy h arr
  unfold getPercentileRef getPercentile
  by_cases hlen : (h.read arr).length = 0
  · simp only [hlen, if_true]
    exact ⟨trivial, fun _ _ => trivial⟩
  · simp only [hlen, if_false]
    rw [h1]
    exact ⟨rfl, h2⟩

/-- C11: `getPercentile` depends only on the multiset of samples: for every
permutation `S'` of `S` and every `p` the two results agree; and on array
objects the call returns that result while leaving the input array, like every
array that existed before the call, unchanged (the sort works on a copy). -/
theorem getPercentile_order_independent (S S' : List ℚ) (p : ℚ) (hperm : S'.Perm S) :
    getPercentile S' p = getPercentile S p ∧
    ∀ (h : Heap) (arr : Nat), arr < h.length → h.read arr = S' →
      (getPercentileRef h arr p).1 = getPercentile S p ∧
      (getPercentileRef h arr p).2.read arr = S' ∧
      ∀ r, r < h.length → (getPercentileRef h arr p).2.read r = h.read r := by
  have hp := getPercentile_of_perm S S' p hperm
  refine ⟨hp, ?_⟩
  intro h arr harr hread
  obtain ⟨h1, h2⟩ := getPercentileRef_spec h arr p
  refine ⟨?_, ?_, h2⟩
  · rw [h1, hread, hp]
  · rw [h2 arr harr, hread]

/-- Witness of C11: the samples `[30, 10, 20]` against `[10, 20, 30]`, at
`p = 50`, the first being the only array in the store. -/
theorem getPercentile_order_independent_witness :
    (([30, 10, 20] : List ℚ).Perm [10, 20, 30]) ∧
    (getPercentile [30, 10, 20] 50 = getPercentile [10, 20, 30] 50 ∧
      ∀ (h : Heap) (arr : Nat), arr < h.length → h.read arr = [30, 10, 20] →
        (getPercentileRef h arr 50).1 = getPercentile [10, 20, 30] 50 ∧
        (getPercentileRef h arr 50).2.read arr = [30, 10, 20] ∧
        ∀ r, r < h.length → (getPercentileRef h arr 50).2.read r = h.read r) :=
  ⟨by decide, getPercentile_order_independent [10, 20, 30] [30, 10, 20] 50 (by decide)⟩

/-- The store after `getPercentile` on the single array `[30, 10, 20]`: the
input as it was, and the sorted copy behind a new reference. -/
theorem getPercentileRef_store :
    (getPercentileRef [[30, 10, 20]] 0 50).2 = [[30, 10, 20], [10, 20, 30]] := by
  norm_num [getPercentileRef, Heap.read, Heap.spread, Heap.sortInPlace, sortAscending]

end LoadTester
